import Mathlib

/-!
Verification development for the LoRA adapter engine of `networks/lora_flux.py`
and the checkpoint key remapper of `library/lumina_util.py`.

Tensors are embedded over `ℚ` (exact arithmetic standing for the float math),
except for the max-norm regularization, which needs square roots and is
embedded over `ℝ`.  Machine-level randomness (dropout) is modelled by an
explicit oracle argument; Python exceptions are modelled by `Option`.
-/

set_option maxHeartbeats 1000000

open Matrix

/-! ## `LoRAModule` (non-split, attached to a `Linear` layer)

`lora_flux.py` lines 27-160.  FLUX has no `Conv2d` (comment at the top of that
file), so the `Linear` geometry is the one embedded: `lora_down` has shape
`(r, in)` and `lora_up` has shape `(out, r)`; a linear layer without bias maps
`x` to `W.mulVec x`. -/

/-- Field state of a non-split `LoRAModule` over a `Linear` target
(`lora_flux.py` lines 32-96). -/
structure LoRAModule (inn r out : ℕ) where
  lora_down : Matrix (Fin r) (Fin inn) ℚ
  lora_up : Matrix (Fin out) (Fin r) ℚ
  multiplier : ℚ
  alpha : ℚ
  scale : ℚ
  dropout : Option ℚ
  rank_dropout : Option ℚ
  module_dropout : Option ℚ

/-- Alpha resolution from `__init__` line 87:
`alpha = self.lora_dim if alpha is None or alpha == 0 else alpha`. -/
def resolveAlpha (lora_dim : ℕ) (alphaArg : Option ℚ) : ℚ :=
  match alphaArg with
  | none => (lora_dim : ℚ)
  | some a => if a = 0 then (lora_dim : ℚ) else a

/-- Constructor of a non-split module (`__init__` lines 58-96):
`self.scale = alpha / self.lora_dim` with the resolved alpha. -/
def LoRAModule.build {inn r out : ℕ} (down : Matrix (Fin r) (Fin inn) ℚ)
    (up : Matrix (Fin out) (Fin r) ℚ) (multiplier : ℚ) (alphaArg : Option ℚ)
    (dropout rank_dropout module_dropout : Option ℚ) : LoRAModule inn r out :=
  { lora_down := down
    lora_up := up
    multiplier := multiplier
    alpha := resolveAlpha r alphaArg
    scale := resolveAlpha r alphaArg / (r : ℚ)
    dropout := dropout
    rank_dropout := rank_dropout
    module_dropout := module_dropout }

/-- Randomness oracle for the dropout branches of `forward`:
`moduleRand` stands for `torch.rand(1)` in the module-dropout test,
`keepMask i = true` means element `i` survives `torch.nn.functional.dropout`,
`rankMask i = true` means rank channel `i` survives rank dropout
(`mask = torch.rand(...) > self.rank_dropout`). -/
structure DropoutRng (r : ℕ) where
  moduleRand : ℚ
  keepMask : Fin r → Bool
  rankMask : Fin r → Bool

/-- `LoRAModule.forward`, non-split branch (`lora_flux.py` lines 103-135), for a
single input vector.  The base layer's computation is an opaque function
`org_forward`; `training` is the `torch.nn.Module` training flag. -/
def LoRAModule.forward {inn r out : ℕ} (m : LoRAModule inn r out)
    (org_forward : (Fin inn → ℚ) → Fin out → ℚ) (training : Bool)
    (rng : DropoutRng r) (x : Fin inn → ℚ) : Fin out → ℚ :=
  let org_forwarded := org_forward x
  -- module dropout (lines 107-109)
  if (m.module_dropout.isSome && training)
      && decide (rng.moduleRand < m.module_dropout.getD 0) then
    org_forwarded
  else
    let lx := m.lora_down.mulVec x
    -- normal dropout (lines 115-116): kept entries are rescaled by 1/(1-p)
    let lx := if m.dropout.isSome && training then
        (fun i => if rng.keepMask i then lx i / (1 - m.dropout.getD 0) else 0)
      else lx
    -- rank dropout (lines 119-131): mask multiply, adjusted scale
    let lxscale :=
      if m.rank_dropout.isSome && training then
        ((fun i => lx i * (if rng.rankMask i then 1 else 0)),
          m.scale * (1 / (1 - m.rank_dropout.getD 0)))
      else (lx, m.scale)
    let lx2 := m.lora_up.mulVec lxscale.1
    -- line 135: `org_forwarded + lx * self.multiplier * scale`
    fun i => org_forwarded i + lx2 i * m.multiplier * lxscale.2

/-- C1: a non-split adapter in evaluation mode (training = false, so no dropout
branch executes) computes `forward(x) = base(x) + multiplier * scale *
(up @ (down @ x))` with `scale = alpha / rank` (for a nonzero alpha argument). -/
theorem c1_forward_eval_nonsplit {inn r out : ℕ}
    (down : Matrix (Fin r) (Fin inn) ℚ) (up : Matrix (Fin out) (Fin r) ℚ)
    (multiplier alpha : ℚ) (d rd md : Option ℚ)
    (org_forward : (Fin inn → ℚ) → Fin out → ℚ) (rng : DropoutRng r)
    (x : Fin inn → ℚ) (halpha : alpha ≠ 0) :
    (LoRAModule.build down up multiplier (some alpha) d rd md).scale = alpha / (r : ℚ) ∧
    (LoRAModule.build down up multiplier (some alpha) d rd md).forward org_forward false rng x
      = fun i => org_forward x i + multiplier * (alpha / (r : ℚ)) * up.mulVec (down.mulVec x) i := by
  constructor
  · simp [LoRAModule.build, resolveAlpha, halpha]
  · funext i
    simp [LoRAModule.forward, LoRAModule.build, resolveAlpha, halpha]
    ring

/-- Witness for C1 at rank 1 with alpha 2, multiplier 3. -/
theorem c1_forward_eval_nonsplit_witness :
    (2 : ℚ) ≠ 0 ∧
    ((LoRAModule.build (1 : Matrix (Fin 1) (Fin 1) ℚ) (1 : Matrix (Fin 1) (Fin 1) ℚ)
        3 (some 2) none none none).scale = 2 / ((1 : ℕ) : ℚ) ∧
      (LoRAModule.build (1 : Matrix (Fin 1) (Fin 1) ℚ) (1 : Matrix (Fin 1) (Fin 1) ℚ)
          3 (some 2) none none none).forward (fun _ _ => 5) false ⟨0, fun _ => true, fun _ => true⟩
          (fun _ => 1)
        = fun i => (fun (_ : Fin 1 → ℚ) (_ : Fin 1) => (5 : ℚ)) (fun _ => 1) i
            + 3 * (2 / ((1 : ℕ) : ℚ))
              * (1 : Matrix (Fin 1) (Fin 1) ℚ).mulVec
                  ((1 : Matrix (Fin 1) (Fin 1) ℚ).mulVec fun _ => 1) i) :=
  ⟨by decide,
    c1_forward_eval_nonsplit (1 : Matrix (Fin 1) (Fin 1) ℚ) (1 : Matrix (Fin 1) (Fin 1) ℚ)
      3 2 none none none (fun _ _ => 5) ⟨0, fun _ => true, fun _ => true⟩ (fun _ => 1)
      (by decide)⟩

/-! ## `LoRAInfModule.get_weight` (lines 243-267)

The method takes an optional `multiplier` argument and binds a local
`multiplier` from it (lines 244-245), but the actual computation (lines
252-265) reads `self.multiplier` throughout.  Linear case embedded
(`len(down_weight.size()) == 2`). -/

/-- `LoRAInfModule.get_weight`, linear branch: the local binding from the
argument mirrors lines 244-245 of the source; the result uses the stored
`self.multiplier` as in line 254. -/
def LoRAInfModule.get_weight {inn r out : ℕ} (m : LoRAModule inn r out)
    (multiplier : Option ℚ) : Matrix (Fin out) (Fin inn) ℚ :=
  let _multiplier := multiplier.getD m.multiplier
  fun i j => m.multiplier * (m.lora_up * m.lora_down) i j * m.scale

/-- C10: `get_weight` ignores its optional multiplier argument; the returned
delta is computed with the module's own stored multiplier, so
`get_weight(m) = get_weight(None)` for every `m`. -/
theorem c10_get_weight_ignores_argument {inn r out : ℕ} (m : LoRAModule inn r out)
    (mult : ℚ) :
    LoRAInfModule.get_weight m (some mult) = LoRAInfModule.get_weight m none ∧
    LoRAInfModule.get_weight m (some mult)
      = fun i j => m.multiplier * (m.lora_up * m.lora_down) i j * m.scale :=
  ⟨rfl, rfl⟩

/-! ## `create_network` flag parsing (lines 328-336)

`split_qkv = kwargs.get("split_qkv", False)` followed by
`if split_qkv is not None: split_qkv = True if split_qkv == "True" else False`,
and identically for `train_t5xxl`.  Keyword-argument values are modelled by a
small Python-value type; `pyEq` is Python `==` (a `bool` never equals a
`str`). -/

/-- Python values that can arrive through `**kwargs` for these flags. -/
inductive PyVal where
  | pstr (s : String)
  | pbool (b : Bool)
  | pnone
deriving DecidableEq

/-- Python `==` restricted to the modelled values: cross-type comparisons are
`False` (in particular `True == "True"` is `False`). -/
def pyEq : PyVal → PyVal → Bool
  | .pstr s, .pstr t => s == t
  | .pbool a, .pbool b => a == b
  | .pnone, .pnone => true
  | _, _ => false

/-- Python truthiness of the modelled values. -/
def pyTruthy : PyVal → Bool
  | .pstr s => !(s == "")
  | .pbool b => b
  | .pnone => false

/-- `kwargs.get(key, default)` over an association list. -/
def kwargsGet (kwargs : List (String × PyVal)) (key : String) (dflt : PyVal) : PyVal :=
  (kwargs.lookup key).getD dflt

/-- The flag normalization of `create_network` lines 329-331 / 334-336:
`v = kwargs.get(key, False); if v is not None: v = (v == "True")`. -/
def create_network_flag (kwargs : List (String × PyVal)) (key : String) : PyVal :=
  let v := kwargsGet kwargs key (.pbool false)
  if v ≠ PyVal.pnone then .pbool (pyEq v (.pstr "True")) else v

/-- `split_qkv` as computed by `create_network` (lines 329-331). -/
def create_network_split_qkv (kwargs : List (String × PyVal)) : PyVal :=
  create_network_flag kwargs "split_qkv"

/-- `train_t5xxl` as computed by `create_network` (lines 334-336). -/
def create_network_train_t5xxl (kwargs : List (String × PyVal)) : PyVal :=
  create_network_flag kwargs "train_t5xxl"

theorem create_network_flag_truthy_iff (kwargs : List (String × PyVal)) (key : String) :
    pyTruthy (create_network_flag kwargs key) = true
      ↔ kwargs.lookup key = some (.pstr "True") := by
  unfold create_network_flag kwargsGet
  cases h : kwargs.lookup key with
  | none => simp [pyEq, pyTruthy]
  | some v =>
    cases v with
    | pstr s =>
      by_cases hs : s = "True" <;>
        simp [pyEq, pyTruthy, hs]
    | pbool b => simp [pyEq, pyTruthy]
    | pnone => simp [pyEq, pyTruthy]

/-- C9: in `create_network`, the `split_qkv` and `train_t5xxl` options are
enabled (truthy) iff the corresponding keyword argument is exactly the string
`"True"`; every other supplied value — including the Python boolean `True` —
leaves the option disabled. -/
theorem c9_flags_require_string_true (kwargs : List (String × PyVal)) :
    (pyTruthy (create_network_split_qkv kwargs) = true
      ↔ kwargs.lookup "split_qkv" = some (.pstr "True")) ∧
    (pyTruthy (create_network_train_t5xxl kwargs) = true
      ↔ kwargs.lookup "train_t5xxl" = some (.pstr "True")) :=
  ⟨create_network_flag_truthy_iff kwargs "split_qkv",
    create_network_flag_truthy_iff kwargs "train_t5xxl"⟩

/-! ## `backup_weights` / `restore_weights` (lines 901-936)

Per-target-layer state.  The Python attributes `_lora_org_weight` and
`_lora_restored` may be absent (`hasattr` checks), modelled by `Option`
fields; accessing an absent attribute raises `AttributeError`, modelled by an
`Option` result.  Note that `backup_weights` sets `_lora_restored = True`
(line 909); only `pre_calculation` (line 935) clears it to `False`.
`LoRAInfModule.merge_to` writes the weight without touching the flag. -/

/-- Base-layer state relevant to backup/restore.  The weight tensor is
abstracted to a single rational (the operations copy / overwrite it whole). -/
structure OrgModule where
  weight : ℚ
  lora_org_weight : Option ℚ
  lora_restored : Option Bool
deriving DecidableEq

/-- `LoRANetwork.backup_weights` restricted to one target layer
(lines 901-909). -/
def backup_weights (m : OrgModule) : OrgModule :=
  match m.lora_org_weight with
  | none => { m with lora_org_weight := some m.weight, lora_restored := some true }
  | some _ => m

/-- `LoRANetwork.restore_weights` restricted to one target layer
(lines 911-920); `none` is the `AttributeError` on a missing attribute. -/
def restore_weights (m : OrgModule) : Option OrgModule :=
  match m.lora_restored with
  | none => none
  | some true => some m
  | some false =>
    match m.lora_org_weight with
    | none => none
    | some w => some { m with weight := w, lora_restored := some true }

/-- The weight write of `LoRANetwork.pre_calculation` for one layer
(lines 922-936): fold a delta into the weight and clear `_lora_restored`. -/
def pre_calculation (m : OrgModule) (delta : ℚ) : OrgModule :=
  { m with weight := m.weight + delta, lora_restored := some false }

/-- The weight write of `LoRAInfModule.merge_to` for one layer (lines 184-240):
it adds the delta into the stored weight but never touches the backup/restore
attributes. -/
def merge_to_weight (m : OrgModule) (delta : ℚ) : OrgModule :=
  { m with weight := m.weight + delta }

/-- C4 counterexample: backup, then a `merge_to` merge, then restore does NOT
bring the weight back — `merge_to` never clears `_lora_restored`, which
`backup_weights` left at `True`, so `restore_weights` is a no-op and the
weight stays merged. -/
theorem c4_counterexample :
    restore_weights (merge_to_weight (backup_weights ⟨1, none, none⟩) 5)
      = some ⟨6, some 1, some true⟩ ∧ (6 : ℚ) ≠ 1 := by
  refine ⟨?_, by norm_num⟩
  show some (⟨(1 : ℚ) + 5, some 1, some true⟩ : OrgModule) = some ⟨6, some 1, some true⟩
  norm_num

/-- C4 (amended): after one `backup_weights` on a fresh layer, any number of
`pre_calculation` merges (each clears the restored flag) followed by a single
`restore_weights` restores the weight bit-identically; repeated
`backup_weights` and repeated `restore_weights` are guarded no-ops. -/
theorem c4_backup_restore_roundtrip (m : OrgModule) (ds : List ℚ)
    (hfresh : m.lora_org_weight = none) :
    ∃ m3 : OrgModule,
      restore_weights (ds.foldl pre_calculation (backup_weights m)) = some m3 ∧
      m3.weight = m.weight ∧
      backup_weights (backup_weights m) = backup_weights m ∧
      restore_weights m3 = some m3 := by
  have hb : backup_weights m
      = { m with lora_org_weight := some m.weight, lora_restored := some true } := by
    unfold backup_weights
    rw [hfresh]
  have hfold : ∀ (ds : List ℚ) (w0 : ℚ) (flag : Bool),
      ∃ w1 flag1, ds.foldl pre_calculation
          { m with weight := w0, lora_org_weight := some m.weight, lora_restored := some flag }
        = { m with weight := w1, lora_org_weight := some m.weight, lora_restored := some flag1 }
        ∧ (ds = [] → w1 = w0 ∧ flag1 = flag) ∧ (ds ≠ [] → flag1 = false) := by
    intro ds
    induction ds with
    | nil =>
      intro w0 flag
      exact ⟨w0, flag, rfl, fun _ => ⟨rfl, rfl⟩, fun h => absurd rfl h⟩
    | cons d rest ih =>
      intro w0 flag
      obtain ⟨w1, flag1, heq, hnil, hcons⟩ := ih (w0 + d) false
      refine ⟨w1, flag1, ?_, fun h => by simp at h, fun _ => ?_⟩
      · exact heq
      · rcases rest with _ | ⟨e, t⟩
        · exact (hnil rfl).2
        · exact hcons (by simp)
  rw [hb]
  rcases ds with _ | ⟨d, rest⟩
  · exact ⟨{ m with lora_org_weight := some m.weight, lora_restored := some true },
      rfl, rfl, rfl, rfl⟩
  · obtain ⟨w1, flag1, heq, _hnil, hcons⟩ := hfold (d :: rest) m.weight true
    have hflag : flag1 = false := hcons (by simp)
    subst hflag
    refine ⟨⟨m.weight, some m.weight, some true⟩, ?_, rfl, rfl, rfl⟩
    have heq' : (d :: rest).foldl pre_calculation { m with lora_org_weight := some m.weight, lora_restored := some true } = { m with weight := w1, lora_org_weight := some m.weight, lora_restored := some false } := heq
    rw [heq']
    rfl

/-- Witness for C4 (amended) on a fresh layer with two merges. -/
theorem c4_backup_restore_roundtrip_witness :
    (OrgModule.mk 1 none none).lora_org_weight = none ∧
    ∃ m3 : OrgModule,
      restore_weights ([(5 : ℚ), 7].foldl pre_calculation (backup_weights ⟨1, none, none⟩))
        = some m3 ∧
      m3.weight = (OrgModule.mk 1 none none).weight ∧
      backup_weights (backup_weights ⟨1, none, none⟩) = backup_weights ⟨1, none, none⟩ ∧
      restore_weights m3 = some m3 :=
  ⟨rfl, c4_backup_restore_roundtrip ⟨1, none, none⟩ [5, 7] rfl⟩

/-! ## `LoRAInfModule.merge_to` (lines 184-240)

Matrices with runtime-checked shapes: PyTorch addition broadcasts a dimension
only when the two sizes are equal or one of them is 1, and raises a
`RuntimeError` otherwise (modelled by `Option`).  Entries outside the stated
dimensions are irrelevant.  FLUX layers are all `Linear`
(`len(weight.size()) == 2`), so the two convolution branches of `merge_to`
are dead for this model family and the 2-D geometry is embedded. -/

/-- A runtime-shaped 2-D tensor. -/
structure PyMat where
  rows : ℕ
  cols : ℕ
  entry : ℕ → ℕ → ℚ

/-- `torch` matrix product with its shape check. -/
def pyMatMul (a b : PyMat) : Option PyMat :=
  if a.cols = b.rows then
    some ⟨a.rows, b.cols, fun i j => ∑ k ∈ Finset.range a.cols, a.entry i k * b.entry k j⟩
  else none

/-- Broadcast of one dimension: sizes must agree or one must be 1. -/
def bcastDim (a b : ℕ) : Option ℕ :=
  if a = b then some a else if a = 1 then some b else if b = 1 then some a else none

/-- `torch` elementwise addition of two 2-D tensors with broadcasting; a size
mismatch on either dimension raises (`none`). -/
def pyAdd (a b : PyMat) : Option PyMat :=
  match bcastDim a.rows b.rows, bcastDim a.cols b.cols with
  | some r, some c =>
    some ⟨r, c, fun i j => a.entry (i % max a.rows 1) (j % max a.cols 1)
      + b.entry (i % max b.rows 1) (j % max b.cols 1)⟩
  | _, _ => none

/-- Scalar multiple of a 2-D tensor. -/
def pySmul (c : ℚ) (a : PyMat) : PyMat :=
  ⟨a.rows, a.cols, fun i j => c * a.entry i j⟩

/-- The `padded_up_weight` constructed in `merge_to`'s split branch (lines
232-233): a `(total_dims, rank)` zero tensor whose rows
`[offset_i, offset_i + split_dims[i])` hold `up_weight`.  The source computes
it and then never uses it. -/
def paddedUpWeight (total_dims : ℕ) (split_dims : List ℕ) (i : ℕ) (up_weight : PyMat) : PyMat :=
  let lo := ((split_dims.take i).sum : ℕ)
  let hi := ((split_dims.take (i + 1)).sum : ℕ)
  ⟨total_dims, up_weight.rows, fun r c => if lo ≤ r ∧ r < hi then up_weight.entry (r - lo) c else 0⟩

/-- `LoRAInfModule` state needed by `merge_to`: the multiplier, the scale, the
optional split mode, and the target layer's stored weight. -/
structure LoRAInfModuleState where
  multiplier : ℚ
  scale : ℚ
  split_dims : Option (List ℕ)
  orgWeight : PyMat

/-- `LoRAInfModule.merge_to` (lines 184-240), linear geometry.  `sdDown`/`sdUp`
are the adapter's own weight-dictionary entries: index 0 holds
`lora_down.weight` / `lora_up.weight` in non-split mode, and index `i` holds
`lora_down.{i}.weight` / `lora_up.{i}.weight` in split mode.  In the split
branch the source builds `padded_up_weight` but merges with the raw
`up_weight` (line 236); the embedding reproduces that faithfully. -/
def LoRAInfModule.merge_to (m : LoRAInfModuleState) (sdDown sdUp : List PyMat) :
    Option PyMat :=
  match m.split_dims with
  | none => do
    let down_weight ← sdDown[0]?
    let up_weight ← sdUp[0]?
    let prod ← pyMatMul up_weight down_weight
    pyAdd m.orgWeight (pySmul (m.multiplier * m.scale) prod)
  | some dims => do
    let total_dims := dims.sum
    (List.range dims.length).foldlM (fun weight i => do
      let down_weight ← sdDown[i]?
      let up_weight ← sdUp[i]?
      let _padded_up_weight := paddedUpWeight total_dims dims i up_weight
      let prod ← pyMatMul up_weight down_weight
      pyAdd weight (pySmul (m.multiplier * m.scale) prod)) m.orgWeight

/-- Concrete split-QKV failing instance for C2: `split_dims = [2, 2]`, rank 1,
`in_dim` 1, base weight of shape `(4, 1)`, branch weights of shapes `(1, 1)`
(down) and `(2, 1)` (up). -/
def c2SplitModule : LoRAInfModuleState :=
  { multiplier := 1, scale := 1, split_dims := some [2, 2], orgWeight := ⟨4, 1, fun _ _ => 1⟩ }

/-- C2 evaluation at the failing input: the split branch of `merge_to` adds the
unpadded `(split_dim, in)` product `up @ down` to the `(out, in)` base weight
(line 236 uses `up_weight`, not the `padded_up_weight` it just built), and the
shape mismatch `2 vs 4` makes the merge raise instead of producing the merged
weight the claim requires. -/
theorem c2_merge_to_split_raises :
    LoRAInfModule.merge_to c2SplitModule
        [⟨1, 1, fun _ _ => 1⟩, ⟨1, 1, fun _ _ => 1⟩]
        [⟨2, 1, fun _ _ => 1⟩, ⟨2, 1, fun _ _ => 1⟩]
      = none := by
  rfl

/-! ## Checkpoint key remapper (`library/lumina_util.py` lines 177-237)

Python string primitives are embedded over `List Char` with structural (fuel)
recursion so that everything evaluates by kernel reduction.  `pyContains`
is Python's substring `in`; `pyReplace` is `str.replace` (all non-overlapping
occurrences, left to right). -/

/-- Boolean prefix test on character lists. -/
def isPrefixList : List Char → List Char → Bool
  | [], _ => true
  | _ :: _, [] => false
  | a :: as, b :: bs => a == b && isPrefixList as bs

/-- Python `pat in s` (contiguous substring test). -/
def pyContains (pat : List Char) : List Char → Bool
  | [] => isPrefixList pat []
  | c :: rest => isPrefixList pat (c :: rest) || pyContains pat rest

/-- Fuel-driven worker for `str.replace`; the fuel is the length of the
subject string, which bounds the number of steps. -/
def pyReplaceAux (pat rep : List Char) : ℕ → List Char → List Char
  | _, [] => []
  | 0, s => s
  | fuel + 1, c :: rest =>
    if isPrefixList pat (c :: rest) then
      rep ++ pyReplaceAux pat rep fuel (List.drop (pat.length - 1) rest)
    else
      c :: pyReplaceAux pat rep fuel rest

/-- Python `s.replace(pat, rep)` for a non-empty pattern (every pattern used
by the remapper is a non-empty literal). -/
def pyReplace (s pat rep : String) : String :=
  if pat.data = [] then s else ⟨pyReplaceAux pat.data rep.data s.data.length s.data⟩

/-- Decimal digit character. -/
def digitChar (d : ℕ) : Char := Char.ofNat (48 + d)

/-- Fuel-driven decimal rendering of a natural number. -/
def natToStrAux : ℕ → ℕ → List Char
  | 0, _ => []
  | fuel + 1, n => if n < 10 then [digitChar n] else natToStrAux fuel (n / 10) ++ [digitChar (n % 10)]

/-- Python `str(n)` for a natural number. -/
def natToStr (n : ℕ) : String := ⟨natToStrAux (n + 1) n⟩

/-- `DIFFUSERS_TO_ALPHA_VLLM_MAP` (`lumina_util.py` lines 177-212), in source
(insertion) order.  In the source the first entry's value is a singleton
Python list, not a string; the conversion loop only ever reads values of
patterns containing `"()."`, so that value is unreachable and is stored here
as its sole element. -/
def DIFFUSERS_TO_ALPHA_VLLM_MAP : List (String × String) :=
  [("cap_embedder.0.weight", "time_caption_embed.caption_embedder.0.weight"),
   ("cap_embedder.1.weight", "time_caption_embed.caption_embedder.1.weight"),
   ("cap_embedder.1.bias", "text_embedder.1.bias"),
   ("x_embedder.weight", "patch_embedder.proj.weight"),
   ("x_embedder.bias", "patch_embedder.proj.bias"),
   ("layers.().adaLN_modulation.1.weight", "transformer_blocks.().adaln_modulation.1.weight"),
   ("layers.().adaLN_modulation.1.bias", "transformer_blocks.().adaln_modulation.1.bias"),
   ("final_layer.adaLN_modulation.1.weight", "final_adaln_modulation.1.weight"),
   ("final_layer.adaLN_modulation.1.bias", "final_adaln_modulation.1.bias"),
   ("final_layer.linear.weight", "final_linear.weight"),
   ("final_layer.linear.bias", "final_linear.bias"),
   ("noise_refiner.().adaLN_modulation.1.weight", "single_transformer_blocks.().adaln_modulation.1.weight"),
   ("noise_refiner.().adaLN_modulation.1.bias", "single_transformer_blocks.().adaln_modulation.1.bias"),
   ("noise_refiner.().attention.qkv.weight", "single_transformer_blocks.().attn.to_qkv.weight"),
   ("noise_refiner.().attention.out.weight", "single_transformer_blocks.().attn.to_out.0.weight"),
   ("t_embedder.mlp.0.weight", "time_embedder.0.weight"),
   ("t_embedder.mlp.0.bias", "time_embedder.0.bias"),
   ("t_embedder.mlp.2.weight", "time_embedder.2.weight"),
   ("t_embedder.mlp.2.bias", "time_embedder.2.bias"),
   ("context_refiner.().attention.qkv.weight", "transformer_blocks.().attn2.to_qkv.weight"),
   ("context_refiner.().attention.out.weight", "transformer_blocks.().attn2.to_out.0.weight"),
   ("layers.().attention_norm1.weight", "transformer_blocks.().norm1.weight"),
   ("layers.().attention_norm2.weight", "transformer_blocks.().norm2.weight"),
   ("layers.().feed_forward.w1.weight", "transformer_blocks.().ff.net.0.proj.weight"),
   ("layers.().feed_forward.w2.weight", "transformer_blocks.().ff.net.2.weight"),
   ("layers.().feed_forward.w3.weight", "transformer_blocks.().ff.net.4.weight")]

/-- The inner `for block_idx in range(num_double_blocks)` loop of
`convert_diffusers_sd_to_alpha_vllm` (lines 224-230): find the first block
index whose decimal string occurs anywhere in the key (then `break`). -/
def firstDigitHit (key : String) (num_double_blocks : ℕ) : Option ℕ :=
  (List.range num_double_blocks).find? (fun i => pyContains (natToStr i).data key.data)

/-- The per-key body of `convert_diffusers_sd_to_alpha_vllm` (lines 221-230):
`new_key` starts as `key`; for each table entry whose pattern contains
`"()."`, if some block index's digits occur in the key, `new_key` is
reassigned to `key.replace(pattern-with-index, replacement-with-index)` —
always recomputed from the original `key`, so a later pattern's no-op replace
overwrites an earlier pattern's successful rename. -/
def convert_key (num_double_blocks : ℕ) (key : String) : String :=
  DIFFUSERS_TO_ALPHA_VLLM_MAP.foldl
    (fun new_key pr =>
      if pyContains ("().".data) pr.1.data then
        match firstDigitHit key num_double_blocks with
        | some i =>
          pyReplace key (pyReplace pr.1 "()" (natToStr i)) (pyReplace pr.2 "()" (natToStr i))
        | none => new_key
      else new_key)
    key

/-- `convert_diffusers_sd_to_alpha_vllm` (lines 215-237): rename every key of
the flat weight dictionary.  The Python result is a dict (later duplicate
keys would overwrite earlier ones); the embedding keeps the key/value pairs in
order. -/
def convert_diffusers_sd_to_alpha_vllm {α : Type} (sd : List (String × α))
    (num_double_blocks : ℕ) : List (String × α) :=
  sd.map (fun kv => (convert_key num_double_blocks kv.1, kv.2))

/-- C6 evaluation at failing inputs: (a) `"x_embedder.weight"` matches the
fixed table's pattern `"x_embedder.weight"` but is returned unchanged, because
the loop only ever applies patterns containing `"()."`; (b)
`"layers.0.attention_norm1.weight"` matches the indexed pattern
`"layers.().attention_norm1.weight"` (block 0) and is indeed renamed when that
entry is processed, but the later `feed_forward` patterns recompute `new_key`
from the original key and overwrite the rename, so the key again comes out
unchanged. A key matching the last indexed pattern shows the loop can rename
when no later pattern overwrites it. -/
theorem c6_convert_key_drops_renames :
    convert_diffusers_sd_to_alpha_vllm [("x_embedder.weight", (0 : ℚ))] 1
      = [("x_embedder.weight", (0 : ℚ))] ∧
    convert_key 1 "layers.0.attention_norm1.weight" = "layers.0.attention_norm1.weight" ∧
    convert_key 1 "layers.0.feed_forward.w3.weight" = "transformer_blocks.0.ff.net.4.weight" := by
  refine ⟨?_, ?_, ?_⟩ <;> decide

/-! ## Split-QKV `state_dict` / `load_state_dict` (lines 629-732)

Per split adapter, `state_dict` concatenates the per-branch down weights along
dim 0 and scatters the per-branch up weights into a block-diagonal
`(sum split_dims, rank * n)` tensor (lines 706-725); `load_state_dict` chunks
the dense down weight into `len(split_dims)` equal pieces and slices the
sparse up weight back into its blocks (lines 645-659).  A matrix is a list of
rows (`List (List ℚ)`); `torch.chunk` produces chunks of size
`ceil(rows / n)`. -/

/-- Row-major rational matrix. -/
abbrev QMat : Type := List (List ℚ)

/-- Chunking worker: the fuel is the requested number of chunks. -/
def chunkAux {α : Type} (c : ℕ) : ℕ → List α → List (List α)
  | 0, _ => []
  | _ + 1, [] => []
  | fuel + 1, x :: xs => (x :: xs).take c :: chunkAux c fuel ((x :: xs).drop c)

/-- `torch.chunk(w, n, dim=0)`: chunks of `ceil(len / n)` rows each. -/
def torchChunk {α : Type} (w : List α) (n : ℕ) : List (List α) :=
  chunkAux ((w.length + n - 1) / n) n w

/-- One row of the scattered up weight: `colOff` zeros, the branch row, zeros
out to `cols` columns. -/
def padRowTo (cols colOff : ℕ) (row : List ℚ) : List ℚ :=
  List.replicate colOff 0 ++ row ++ List.replicate (cols - colOff - row.length) 0

/-- The row blocks of the scattered up weight: branch `j` occupies columns
`[j*rank, (j+1)*rank)` (the slice assignment of lines 717-721). -/
def padBlocks (cols rank : ℕ) : ℕ → List QMat → List QMat
  | _, [] => []
  | j, m :: rest => m.map (padRowTo cols (j * rank)) :: padBlocks cols rank (j + 1) rest

/-- The split-adapter branch of `LoRANetwork.state_dict` (lines 706-725):
merge the branch down weights by concatenation along dim 0 and the branch up
weights into the block-sparse `(sum split_dims, rank * n)` tensor, with
`rank = up_weights[0].size(1)` and the up width `down_weight.size(0)`. -/
def sd_merge (downs ups : List QMat) : QMat × QMat :=
  let down_weight := downs.flatten
  let rank := ((ups.headD []).headD []).length
  let up_weight := (padBlocks down_weight.length rank 0 ups).flatten
  (down_weight, up_weight)

/-- The down split of `LoRANetwork.load_state_dict` (lines 645-651):
`torch.chunk(weight, len(split_dims), dim=0)`. -/
def load_split_down (w : QMat) (split_dims : List ℕ) : List QMat :=
  torchChunk w split_dims.length

/-- The slicing loop of `LoRANetwork.load_state_dict`'s up split (lines
653-659): row offset `i` accumulates `split_dims[j]`, the column window is
`[j*rank, (j+1)*rank)`. -/
def sliceUps (w : QMat) (rank : ℕ) : ℕ → ℕ → List ℕ → List QMat
  | _, _, [] => []
  | i, j, sd :: rest =>
    ((w.drop i).take sd).map (fun row => (row.drop (j * rank)).take rank)
      :: sliceUps w rank (i + sd) (j + 1) rest

/-- The up split of `LoRANetwork.load_state_dict` (lines 653-659), with
`rank = weight.size(1) // len(split_dims)`. -/
def load_split_up (w : QMat) (split_dims : List ℕ) : List QMat :=
  let rank := (w.headD []).length / split_dims.length
  sliceUps w rank 0 0 split_dims

lemma length_flatten_const {α : Type} (c : ℕ) :
    ∀ ls : List (List α), (∀ m ∈ ls, m.length = c) → ls.flatten.length = ls.length * c := by
  intro ls
  induction ls with
  | nil => intro _; simp
  | cons m t ih =>
    intro h
    have hm : m.length = c := h m (List.mem_cons_self m t)
    have ht := ih (fun x hx => h x (List.mem_cons_of_mem _ hx))
    simp only [List.flatten_cons, List.length_append, List.length_cons, hm, ht]
    ring

lemma chunkAux_flatten {α : Type} (c : ℕ) (hc : 0 < c) :
    ∀ ls : List (List α), (∀ m ∈ ls, m.length = c) → chunkAux c ls.length ls.flatten = ls := by
  intro ls
  induction ls with
  | nil => intro _; rfl
  | cons m t ih =>
    intro h
    have hm : m.length = c := h m (List.mem_cons_self m t)
    obtain ⟨a, as, rfl⟩ : ∃ a as, m = a :: as := by
      cases m with
      | nil => exact absurd hm.symm (by simpa using hc.ne')
      | cons a as => exact ⟨a, as, rfl⟩
    show ((a :: (as ++ t.flatten)).take c) :: chunkAux c t.length ((a :: (as ++ t.flatten)).drop c)
      = (a :: as) :: t
    rw [show (a :: (as ++ t.flatten)) = (a :: as) ++ t.flatten from rfl,
      List.take_left' hm, List.drop_left' hm]
    exact congrArg _ (ih (fun x hx => h x (List.mem_cons_of_mem _ hx)))

lemma padRowTo_slice (cols colOff : ℕ) (row : List ℚ) :
    (((padRowTo cols colOff row).drop colOff).take row.length) = row := by
  unfold padRowTo
  rw [List.append_assoc, List.drop_left' (by simp), List.take_left' rfl]

lemma sliceUps_padBlocks (rank cols : ℕ) :
    ∀ (ups : List QMat) (sds : List ℕ) (j : ℕ) (pre : QMat),
      ups.map List.length = sds →
      (∀ u ∈ ups, ∀ row ∈ u, row.length = rank) →
      sliceUps (pre ++ (padBlocks cols rank j ups).flatten) rank pre.length j sds = ups := by
  intro ups
  induction ups with
  | nil =>
    intro sds j pre hlen _
    have : sds = [] := by simpa using hlen.symm
    subst this
    rfl
  | cons u us ih =>
    intro sds j pre hlen hrows
    cases sds with
    | nil => simp at hlen
    | cons sd sds' =>
      have hu0 : u.length = sd := by
        simpa using congrArg (fun l => l.headD 0) hlen
      have hrest : us.map List.length = sds' := by
        simpa using congrArg List.tail hlen
      have hurows : ∀ row ∈ u, row.length = rank :=
        hrows u (List.mem_cons_self u us)
      have hblock : (u.map (padRowTo cols (j * rank))).length = sd := by
        simpa using hu0
      show (((pre ++ (u.map (padRowTo cols (j * rank)) :: padBlocks cols rank (j + 1) us).flatten).drop
            pre.length).take sd).map (fun row => (row.drop (j * rank)).take rank)
          :: sliceUps (pre ++ (u.map (padRowTo cols (j * rank)) :: padBlocks cols rank (j + 1) us).flatten)
            rank (pre.length + sd) (j + 1) sds'
        = u :: us
      rw [List.flatten_cons, List.drop_left, List.take_left' hblock]
      congr 1
      · rw [List.map_map]
        have hpt : ∀ row ∈ u, ((padRowTo cols (j * rank) row).drop (j * rank)).take rank = row := by
          intro row hrow
          have hr := hurows row hrow
          calc ((padRowTo cols (j * rank) row).drop (j * rank)).take rank
              = ((padRowTo cols (j * rank) row).drop (j * rank)).take row.length := by rw [hr]
            _ = row := padRowTo_slice cols (j * rank) row
        calc u.map ((fun row => (row.drop (j * rank)).take rank) ∘ padRowTo cols (j * rank))
            = u.map id := List.map_congr_left (fun row hrow => hpt row hrow)
          _ = u := List.map_id u
      · rw [show pre ++ (u.map (padRowTo cols (j * rank)) ++ (padBlocks cols rank (j + 1) us).flatten)
            = (pre ++ u.map (padRowTo cols (j * rank))) ++ (padBlocks cols rank (j + 1) us).flatten
          from by simp,
          show pre.length + sd = (pre ++ u.map (padRowTo cols (j * rank))).length
          from by simp [hblock]]
        exact ih sds' (j + 1) (pre ++ u.map (padRowTo cols (j * rank))) hrest
          (fun x hx => hrows x (List.mem_cons_of_mem _ hx))

/-- C3: serializing a split-QKV adapter's per-branch weights with the
`state_dict` merge and deserializing with the `load_state_dict` chunk/slice
reproduces the original per-branch down and up weights exactly.  Shapes are
those the module construction guarantees: `n = len(split_dims)` branches,
each down weight with `rank` rows, each up weight with `split_dims[j]` rows of
`rank` columns, `rank > 0` and a non-empty first branch. -/
theorem c3_split_qkv_roundtrip (downs ups : List QMat) (split_dims : List ℕ) (rank : ℕ)
    (hd : downs.length = split_dims.length)
    (hlens : ups.map List.length = split_dims)
    (hrank : 0 < rank)
    (hdrows : ∀ d ∈ downs, d.length = rank)
    (hucols : ∀ u ∈ ups, ∀ row ∈ u, row.length = rank)
    (h0 : 0 < split_dims.headD 0) :
    load_split_down (sd_merge downs ups).1 split_dims = downs ∧
    load_split_up (sd_merge downs ups).2 split_dims = ups := by
  have hsne : split_dims ≠ [] := by
    intro h
    rw [h] at h0
    exact absurd h0 (by simp)
  have hn : 0 < split_dims.length := List.length_pos.mpr hsne
  have hflat_len : downs.flatten.length = split_dims.length * rank := by
    rw [length_flatten_const rank downs hdrows, hd]
  obtain ⟨sd0, sds', rfl⟩ : ∃ sd0 sds', split_dims = sd0 :: sds' := by
    cases split_dims with
    | nil => exact absurd rfl hsne
    | cons a t => exact ⟨a, t, rfl⟩
  obtain ⟨u0, us, rfl⟩ : ∃ u0 us, ups = u0 :: us := by
    cases ups with
    | nil => simp at hlens
    | cons a t => exact ⟨a, t, rfl⟩
  have hu0len : u0.length = sd0 := by
    simpa using congrArg (fun l => l.headD 0) hlens
  obtain ⟨row0, rows0, rfl⟩ : ∃ row0 rows0, u0 = row0 :: rows0 := by
    cases u0 with
    | nil =>
      rw [List.length_nil] at hu0len
      exact absurd (hu0len ▸ h0) (by simp)
    | cons a t => exact ⟨a, t, rfl⟩
  have hrow0 : row0.length = rank :=
    hucols (row0 :: rows0) (List.mem_cons_self _ _) row0 (List.mem_cons_self _ _)
  constructor
  · -- down round trip: the chunk size evaluates to `rank`
    unfold load_split_down torchChunk
    have hceil : ((sd_merge downs ((row0 :: rows0) :: us)).1.length
        + ((sd0 :: sds').length) - 1) / ((sd0 :: sds').length) = rank := by
      show (downs.flatten.length + (sd0 :: sds').length - 1) / (sd0 :: sds').length = rank
      rw [hflat_len]
      have h1 : (sd0 :: sds').length * rank + (sd0 :: sds').length - 1
          = ((sd0 :: sds').length - 1) + rank * (sd0 :: sds').length := by
        rw [Nat.mul_comm]
        omega
      rw [h1, Nat.add_mul_div_right _ _ hn, Nat.div_eq_of_lt (by omega)]
      omega
    rw [hceil]
    show chunkAux rank (sd0 :: sds').length downs.flatten = downs
    rw [← hd]
    exact chunkAux_flatten rank hrank downs hdrows
  · -- up round trip
    have hmerge_rank : ((((row0 :: rows0) :: us).headD []).headD []).length = rank := hrow0
    have hhead : ((sd_merge downs ((row0 :: rows0) :: us)).2.headD []).length
        = downs.flatten.length := by
      show (((padBlocks downs.flatten.length
          ((((row0 :: rows0) :: us).headD []).headD []).length 0
          ((row0 :: rows0) :: us)).flatten.headD []).length) = downs.flatten.length
      rw [hmerge_rank]
      show ((padRowTo downs.flatten.length (0 * rank) row0
          :: (rows0.map (padRowTo downs.flatten.length (0 * rank))
            ++ (padBlocks downs.flatten.length rank 1 us).flatten)).headD []).length
        = downs.flatten.length
      show (padRowTo downs.flatten.length (0 * rank) row0).length = downs.flatten.length
      unfold padRowTo
      simp only [List.length_append, List.length_replicate, hrow0, Nat.zero_mul]
      have : rank ≤ downs.flatten.length := by
        rw [hflat_len]
        calc rank = 1 * rank := (Nat.one_mul rank).symm
          _ ≤ (sd0 :: sds').length * rank := Nat.mul_le_mul_right rank hn
      omega
    unfold load_split_up
    rw [hhead, hflat_len, Nat.mul_div_cancel_left rank hn]
    have hlem := sliceUps_padBlocks rank downs.flatten.length ((row0 :: rows0) :: us)
      (sd0 :: sds') 0 [] hlens hucols
    rw [List.nil_append] at hlem
    show sliceUps (padBlocks downs.flatten.length
        ((((row0 :: rows0) :: us).headD []).headD []).length 0 ((row0 :: rows0) :: us)).flatten
        rank 0 0 (sd0 :: sds') = (row0 :: rows0) :: us
    rw [hmerge_rank]
    exact hlem

/-- Witness for C3: two branches, `split_dims = [1, 2]`, rank 1. -/
theorem c3_split_qkv_roundtrip_witness :
    ([[[(1 : ℚ)]], [[2]]] : List QMat).length = ([1, 2] : List ℕ).length ∧
    ([[[(3 : ℚ)]], [[4], [5]]] : List QMat).map List.length = [1, 2] ∧
    0 < 1 ∧
    (∀ d ∈ ([[[(1 : ℚ)]], [[2]]] : List QMat), d.length = 1) ∧
    (∀ u ∈ ([[[(3 : ℚ)]], [[4], [5]]] : List QMat), ∀ row ∈ u, row.length = 1) ∧
    0 < ([1, 2] : List ℕ).headD 0 ∧
    (load_split_down (sd_merge [[[(1 : ℚ)]], [[2]]] [[[3]], [[4], [5]]]).1 [1, 2]
        = [[[(1 : ℚ)]], [[2]]] ∧
      load_split_up (sd_merge [[[(1 : ℚ)]], [[2]]] [[[3]], [[4], [5]]]).2 [1, 2]
        = [[[(3 : ℚ)]], [[4], [5]]]) :=
  ⟨by decide, by decide, by decide, by decide, by decide, by decide,
    c3_split_qkv_roundtrip [[[(1 : ℚ)]], [[2]]] [[[3]], [[4], [5]]] [1, 2] 1
      (by decide) (by decide) (by decide) (by decide) (by decide) (by decide)⟩

/-! ## `apply_max_norm_regularization` (lines 938-978)

The per-adapter math needs Frobenius norms and square roots, so this section
is stated over `ℝ` (the idealization of the float computation) and is
noncomputable.  For FLUX every weight is 2-D, so `up.shape[2:]` is the empty
tuple, both convolution tests are false, and the `else` branch
`updown = up @ down` is the live one.  The returned statistics raise a
`ZeroDivisionError` on an adapterless network (`sum(norms) / len(norms)`),
modelled by `Option`.  The function operates on the (non-split) `state_dict`,
one `lora_down/lora_up/alpha` triple per adapter. -/

section MaxNorm

open scoped Classical

/-- One adapter's raw state-dict entries: `lora_down.weight` of shape
`(r, inn)`, `lora_up.weight` of shape `(out, r)`, and `alpha`. -/
structure RawAdapter where
  r : ℕ
  inn : ℕ
  out : ℕ
  down : Matrix (Fin r) (Fin inn) ℝ
  up : Matrix (Fin out) (Fin r) ℝ
  alpha : ℝ

/-- Frobenius norm (`tensor.norm()`). -/
noncomputable def frobNorm {m n : ℕ} (M : Matrix (Fin m) (Fin n) ℝ) : ℝ :=
  Real.sqrt (∑ i, ∑ j, M i j ^ 2)

/-- `updown = up @ down; updown *= scale` with `scale = alpha / dim`,
`dim = down.shape[0]` (lines 956-966). -/
noncomputable def updownOf (a : RawAdapter) : Matrix (Fin a.out) (Fin a.inn) ℝ :=
  (a.alpha / (a.r : ℝ)) • (a.up * a.down)

/-- `norm = updown.norm().clamp(min=max_norm_value / 2)` (line 968). -/
noncomputable def normClamped (maxv : ℝ) (a : RawAdapter) : ℝ :=
  max (frobNorm (updownOf a)) (maxv / 2)

/-- `desired = torch.clamp(norm, max=max_norm_value)` (line 969). -/
noncomputable def desiredOf (maxv : ℝ) (a : RawAdapter) : ℝ :=
  min (normClamped maxv a) maxv

/-- `ratio = desired / norm` (line 970). -/
noncomputable def ratioOf (maxv : ℝ) (a : RawAdapter) : ℝ :=
  desiredOf maxv a / normClamped maxv a

/-- The in-place rescale of lines 972-975: when `ratio != 1` both raw weights
are multiplied by `ratio ** 0.5`. -/
noncomputable def stepAdapter (maxv : ℝ) (a : RawAdapter) : RawAdapter :=
  if ratioOf maxv a = 1 then a
  else { a with up := Real.sqrt (ratioOf maxv a) • a.up, down := Real.sqrt (ratioOf maxv a) • a.down }

/-- `scalednorm = updown.norm() * ratio` (line 976). -/
noncomputable def scalednormOf (maxv : ℝ) (a : RawAdapter) : ℝ :=
  frobNorm (updownOf a) * ratioOf maxv a

/-- The `for i in range(len(downkeys))` loop (lines 952-977): the scaled-key
count and the `norms` list in adapter order. -/
noncomputable def applyLoopMaxNorm (maxv : ℝ) : List RawAdapter → ℕ × List ℝ
  | [] => (0, [])
  | a :: rest =>
    let tailRes := applyLoopMaxNorm maxv rest
    ((if ratioOf maxv a = 1 then 0 else 1) + tailRes.1,
      scalednormOf maxv a :: tailRes.2)

/-- Python `max(l)` on a non-empty list. -/
noncomputable def pyMaxList : List ℝ → ℝ
  | [] => 0
  | h :: t => t.foldl max h

/-- `LoRANetwork.apply_max_norm_regularization` (lines 938-978): returns
`keys_scaled, sum(norms) / len(norms), max(norms)`; on an empty adapter list
the division raises (`none`). -/
noncomputable def apply_max_norm_regularization (maxv : ℝ) (adapters : List RawAdapter) :
    Option (ℕ × ℝ × ℝ) :=
  match adapters with
  | [] => none
  | _ =>
    let res := applyLoopMaxNorm maxv adapters
    some (res.1, res.2.sum / (res.2.length : ℝ), pyMaxList res.2)

lemma frobNorm_nonneg {m n : ℕ} (M : Matrix (Fin m) (Fin n) ℝ) : 0 ≤ frobNorm M :=
  Real.sqrt_nonneg _

lemma frobNorm_smul {m n : ℕ} (c : ℝ) (M : Matrix (Fin m) (Fin n) ℝ) :
    frobNorm (c • M) = |c| * frobNorm M := by
  unfold frobNorm
  have hentry : ∀ i j, (c • M) i j ^ 2 = c ^ 2 * M i j ^ 2 := by
    intro i j
    simp [Matrix.smul_apply, mul_pow]
  have hsum : (∑ i, ∑ j, (c • M) i j ^ 2) = c ^ 2 * ∑ i, ∑ j, M i j ^ 2 := by
    simp only [hentry, ← Finset.mul_sum]
  rw [hsum, Real.sqrt_mul (sq_nonneg c), Real.sqrt_sq_eq_abs]

lemma normClamped_pos {maxv : ℝ} (hmax : 0 < maxv) (a : RawAdapter) :
    0 < normClamped maxv a :=
  lt_of_lt_of_le (half_pos hmax) (le_max_right _ _)

lemma ratioOf_eq_one_iff {maxv : ℝ} (hmax : 0 < maxv) (a : RawAdapter) :
    ratioOf maxv a = 1 ↔ frobNorm (updownOf a) ≤ maxv := by
  have hpos := normClamped_pos hmax a
  constructor
  · intro h
    have hdes : desiredOf maxv a = normClamped maxv a := by
      have := congrArg (fun x => x * normClamped maxv a) h
      simpa [ratioOf, div_mul_cancel₀ _ hpos.ne'] using this
    have hle : normClamped maxv a ≤ maxv := min_eq_left_iff.mp hdes
    exact le_trans (le_max_left _ _) hle
  · intro h
    have hcl : normClamped maxv a ≤ maxv :=
      max_le h (by linarith)
    have hdes : desiredOf maxv a = normClamped maxv a := min_eq_left hcl
    rw [ratioOf, hdes, div_self hpos.ne']

lemma ratioOf_of_gt {maxv : ℝ} (hmax : 0 < maxv) (a : RawAdapter)
    (h : maxv < frobNorm (updownOf a)) :
    normClamped maxv a = frobNorm (updownOf a) ∧
    ratioOf maxv a = maxv / frobNorm (updownOf a) := by
  have hcl : normClamped maxv a = frobNorm (updownOf a) :=
    max_eq_left (by linarith)
  refine ⟨hcl, ?_⟩
  have hdes : desiredOf maxv a = maxv := by
    rw [desiredOf, hcl]
    exact min_eq_right h.le
  rw [ratioOf, hdes, hcl]

lemma updownOf_stepAdapter {maxv : ℝ} (hmax : 0 < maxv) (a : RawAdapter) :
    frobNorm (updownOf (stepAdapter maxv a)) = scalednormOf maxv a := by
  by_cases hr : ratioOf maxv a = 1
  · rw [stepAdapter, if_pos hr, scalednormOf, hr, mul_one]
  · have hgt : maxv < frobNorm (updownOf a) := by
      by_contra hle
      exact hr ((ratioOf_eq_one_iff hmax a).mpr (not_lt.mp hle))
    obtain ⟨hcl, hratio⟩ := ratioOf_of_gt hmax a hgt
    have hfpos : 0 < frobNorm (updownOf a) := lt_trans hmax hgt
    have hrnn : 0 ≤ ratioOf maxv a := by
      rw [hratio]
      positivity
    rw [stepAdapter, if_neg hr]
    have hud : updownOf { a with up := Real.sqrt (ratioOf maxv a) • a.up, down := Real.sqrt (ratioOf maxv a) • a.down }
        = (Real.sqrt (ratioOf maxv a) * Real.sqrt (ratioOf maxv a)) • updownOf a := by
      unfold updownOf
      show (a.alpha / (a.r : ℝ)) • ((Real.sqrt (ratioOf maxv a) • a.up) * (Real.sqrt (ratioOf maxv a) • a.down)) = _
      rw [Matrix.smul_mul, Matrix.mul_smul]
      simp only [smul_smul]
      congr 1
      ring
    rw [hud, frobNorm_smul, Real.mul_self_sqrt hrnn, abs_of_nonneg hrnn, scalednormOf,
      mul_comm]

lemma stepAdapter_bounded {maxv : ℝ} (hmax : 0 < maxv) (a : RawAdapter) :
    frobNorm (updownOf (stepAdapter maxv a)) ≤ maxv := by
  rw [updownOf_stepAdapter hmax a]
  by_cases hr : ratioOf maxv a = 1
  · rw [scalednormOf, hr, mul_one]
    exact (ratioOf_eq_one_iff hmax a).mp hr
  · have hgt : maxv < frobNorm (updownOf a) := by
      by_contra hle
      exact hr ((ratioOf_eq_one_iff hmax a).mpr (not_lt.mp hle))
    obtain ⟨_, hratio⟩ := ratioOf_of_gt hmax a hgt
    have hfpos : 0 < frobNorm (updownOf a) := lt_trans hmax hgt
    rw [scalednormOf, hratio, mul_div_assoc']
    rw [mul_comm, mul_div_assoc, div_self hfpos.ne', mul_one]

lemma applyLoopMaxNorm_eq {maxv : ℝ} (hmax : 0 < maxv) (adapters : List RawAdapter) :
    applyLoopMaxNorm maxv adapters
      = (adapters.countP (fun a => decide (maxv < frobNorm (updownOf a))),
          adapters.map (fun a => frobNorm (updownOf (stepAdapter maxv a)))) := by
  induction adapters with
  | nil => rfl
  | cons a rest ih =>
    show ((if ratioOf maxv a = 1 then 0 else 1) + (applyLoopMaxNorm maxv rest).1,
        scalednormOf maxv a :: (applyLoopMaxNorm maxv rest).2) = _
    rw [ih]
    have hcount : (if ratioOf maxv a = 1 then (0 : ℕ) else 1)
        = if decide (maxv < frobNorm (updownOf a)) = true then 1 else 0 := by
      by_cases hr : ratioOf maxv a = 1
      · have : ¬ maxv < frobNorm (updownOf a) := not_lt.mpr ((ratioOf_eq_one_iff hmax a).mp hr)
        simp [hr, this]
      · have : maxv < frobNorm (updownOf a) := by
          by_contra hle
          exact hr ((ratioOf_eq_one_iff hmax a).mpr (not_lt.mp hle))
        simp [hr, this]
    rw [List.countP_cons, List.map_cons, hcount, updownOf_stepAdapter hmax a]
    exact Prod.ext (by simp only []; omega) rfl

/-- C5: for `max_norm > 0` and a network with at least one adapter,
`apply_max_norm_regularization` (a) leaves every adapter whose delta norm is
already at most `max_norm` numerically unscaled and does not count it, (b)
rescales every other adapter so the recomputed delta norm is at most
`max_norm` (in fact every post-scaling delta norm is ≤ `max_norm`), and (c)
returns the count of rescaled adapters together with the mean and max of the
post-scaling per-adapter delta norms. -/
theorem c5_apply_max_norm_regularization (maxv : ℝ) (adapters : List RawAdapter)
    (hmax : 0 < maxv) (hne : adapters ≠ []) :
    (∀ a ∈ adapters, frobNorm (updownOf a) ≤ maxv → stepAdapter maxv a = a) ∧
    (∀ a ∈ adapters, frobNorm (updownOf (stepAdapter maxv a)) ≤ maxv) ∧
    apply_max_norm_regularization maxv adapters
      = some (adapters.countP (fun a => decide (maxv < frobNorm (updownOf a))),
          (adapters.map (fun a => frobNorm (updownOf (stepAdapter maxv a)))).sum
            / ((adapters.map (fun a => frobNorm (updownOf (stepAdapter maxv a)))).length : ℝ),
          pyMaxList (adapters.map (fun a => frobNorm (updownOf (stepAdapter maxv a))))) := by
  refine ⟨?_, ?_, ?_⟩
  · intro a _ hle
    rw [stepAdapter, if_pos ((ratioOf_eq_one_iff hmax a).mpr hle)]
  · intro a _
    exact stepAdapter_bounded hmax a
  · obtain ⟨a0, rest, rfl⟩ : ∃ a0 rest, adapters = a0 :: rest := by
      cases adapters with
      | nil => exact absurd rfl hne
      | cons a t => exact ⟨a, t, rfl⟩
    show some ((applyLoopMaxNorm maxv (a0 :: rest)).1,
        (applyLoopMaxNorm maxv (a0 :: rest)).2.sum
          / ((applyLoopMaxNorm maxv (a0 :: rest)).2.length : ℝ),
        pyMaxList (applyLoopMaxNorm maxv (a0 :: rest)).2) = _
    rw [applyLoopMaxNorm_eq hmax]

/-- The all-zero rank-1 adapter used by the C5 witness: its delta is the zero
matrix, so its norm is 0. -/
noncomputable def zeroAdapter : RawAdapter :=
  { r := 1, inn := 1, out := 1, down := 0, up := 0, alpha := 1 }

/-- Witness for C5 at `max_norm = 1` on the singleton zero adapter. -/
theorem c5_apply_max_norm_regularization_witness :
    (0 : ℝ) < 1 ∧ ([zeroAdapter] ≠ []) ∧
    ((∀ a ∈ [zeroAdapter], frobNorm (updownOf a) ≤ 1 → stepAdapter 1 a = a) ∧
      (∀ a ∈ [zeroAdapter], frobNorm (updownOf (stepAdapter 1 a)) ≤ 1) ∧
      apply_max_norm_regularization 1 [zeroAdapter]
        = some (([zeroAdapter]).countP (fun a => decide ((1 : ℝ) < frobNorm (updownOf a))),
            (([zeroAdapter]).map (fun a => frobNorm (updownOf (stepAdapter 1 a)))).sum
              / ((([zeroAdapter]).map (fun a => frobNorm (updownOf (stepAdapter 1 a)))).length : ℝ),
            pyMaxList (([zeroAdapter]).map (fun a => frobNorm (updownOf (stepAdapter 1 a)))))) :=
  ⟨one_pos, List.cons_ne_nil _ _,
    c5_apply_max_norm_regularization 1 [zeroAdapter] one_pos (List.cons_ne_nil _ _)⟩

end MaxNorm

/-! ## Layer discovery: `LoRANetwork.__init__` / `create_modules` (lines 436-607)

A base model is its `named_modules()` listing: a list of named sub-modules,
each carrying its class name and its own `named_modules()` listing of
(potential leaf) children.  `create_modules` selects the sub-modules whose
class is in the target list and, inside them, every `Linear`/`Conv2d` child;
ranks come either from the global defaults (training) or from the per-name
`modules_dim`/`modules_alpha` maps (loading).  A `KeyError` on
`modules_alpha[lora_name]` is modelled by `none`. -/

/-- A candidate leaf layer as seen by `create_modules`: name inside its block,
class name, and whether a `Conv2d` has a 1x1 kernel. -/
structure Leaf where
  name : String
  className : String
  kernel1x1 : Bool
deriving DecidableEq

/-- A named sub-module of the base model with its `named_modules()` listing. -/
structure SubModule where
  name : String
  className : String
  children : List Leaf
deriving DecidableEq

/-- The validated `train_blocks` argument (`create_network` line 326 asserts
membership in `["all", "single", "double"]`; `None` becomes `"all"`). -/
inductive TrainBlocks where
  | all
  | single
  | double
deriving DecidableEq

/-- Lines 584-589: the target class list selected by `train_blocks`. -/
def targetReplaceModules : TrainBlocks → List String
  | .all => ["DoubleStreamBlock"] ++ ["SingleStreamBlock"]
  | .single => ["SingleStreamBlock"]
  | .double => ["DoubleStreamBlock"]

def LORA_PREFIX_FLUX : String := "lora_unet"

def LORA_PREFIX_TEXT_ENCODER_CLIP : String := "lora_te1"

def LORA_PREFIX_TEXT_ENCODER_T5 : String := "lora_te3"

/-- Line 503-507: choose the adapter-name prefix. -/
def pfxOf (is_flux : Bool) (text_encoder_idx : Option ℕ) : String :=
  if is_flux then LORA_PREFIX_FLUX
  else if text_encoder_idx = some 0 then LORA_PREFIX_TEXT_ENCODER_CLIP
  else LORA_PREFIX_TEXT_ENCODER_T5

/-- Line 520: `lora_name.replace(".", "_")`. -/
def normalizeName (s : String) : String :=
  ⟨s.data.map (fun c => if c = '.' then '_' else c)⟩

/-- Lines 519-520: the adapter identity name of a leaf. -/
def loraNameOf (pfx : String) (m : SubModule) (c : Leaf) : String :=
  normalizeName (pfx ++ "." ++ m.name ++ "." ++ c.name)

/-- The network configuration fields `create_modules` consults. -/
structure NetworkCfg where
  lora_dim : ℕ
  alpha : ℚ
  conv_lora_dim : Option ℕ
  conv_alpha : Option ℚ
  modules_dim : Option (List (String × ℕ))
  modules_alpha : List (String × ℚ)
  split_qkv : Bool
  train_blocks : TrainBlocks

/-- A created adapter record: identity name, rank, alpha argument, split
partition. -/
structure Lora where
  lora_name : String
  dim : ℕ
  alphaArg : Option ℚ
  split_dims : Option (List ℕ)
deriving DecidableEq

/-- Lines 545-551: the fixed split partition for fused-attention layers when
`split_qkv` is on. -/
def computeSplitDims (cfg : NetworkCfg) (is_flux : Bool) (nm : String) : Option (List ℕ) :=
  if is_flux && cfg.split_qkv then
    if pyContains ("double".data) nm.data && pyContains ("qkv".data) nm.data then
      some [3072, 3072, 3072]
    else if pyContains ("single".data) nm.data && pyContains ("linear1".data) nm.data then
      some ([3072, 3072, 3072] ++ [12288])
    else none
  else none

/-- Outcome of lines 514-564 for one child: an adapter, a recorded skip, a
silent skip (`continue` without recording), a non-leaf (`ignore`), or the
`KeyError` from `modules_alpha[lora_name]`. -/
inductive LeafOut where
  | made (l : Lora)
  | skipRec (nm : String)
  | skipSilent
  | ignore
  | err
deriving DecidableEq

/-- Line 514: `is_linear`. -/
def leafIsLinear (c : Leaf) : Bool := c.className == "Linear"

/-- Line 515: `is_conv2d`. -/
def leafIsConv2d (c : Leaf) : Bool := c.className == "Conv2d"

/-- Line 516: `is_conv2d_1x1`. -/
def leafIsConv2d1x1 (c : Leaf) : Bool := leafIsConv2d c && c.kernel1x1

/-- Lines 539-543: the skip is recorded only for linear / 1x1-conv layers or
when a conv rank is configured; other leaves are skipped silently. -/
def skipOutcome (cfg : NetworkCfg) (c : Leaf) (nm : String) : LeafOut :=
  if leafIsLinear c || leafIsConv2d1x1 c || cfg.conv_lora_dim.isSome then .skipRec nm
  else .skipSilent

/-- Lines 525-529 and 539-564 when a `modules_dim` map is supplied: look up
rank and alpha by name (a missing alpha for a present rank is a `KeyError`). -/
def classifyLeafMapped (cfg : NetworkCfg) (is_flux : Bool) (dm : List (String × ℕ))
    (c : Leaf) (nm : String) : LeafOut :=
  match dm.lookup nm with
  | none => skipOutcome cfg c nm
  | some d =>
    match cfg.modules_alpha.lookup nm with
    | none => .err
    | some a =>
      if d = 0 then skipOutcome cfg c nm
      else .made ⟨nm, d, some a, computeSplitDims cfg is_flux nm⟩

/-- Lines 530-537 and 539-564 in training mode: global defaults. -/
def classifyLeafTraining (cfg : NetworkCfg) (is_flux : Bool) (c : Leaf) (nm : String) :
    LeafOut :=
  let dimalpha : Option ℕ × Option ℚ :=
    if leafIsLinear c || leafIsConv2d1x1 c then (some cfg.lora_dim, some cfg.alpha)
    else
      match cfg.conv_lora_dim with
      | some cd => (some cd, cfg.conv_alpha)
      | none => (none, none)
  match dimalpha.1 with
  | none => skipOutcome cfg c nm
  | some d =>
    if d = 0 then skipOutcome cfg c nm
    else .made ⟨nm, d, dimalpha.2, computeSplitDims cfg is_flux nm⟩

/-- Lines 514-564 for one child module. -/
def classifyLeaf (cfg : NetworkCfg) (is_flux : Bool) (pfx : String) (m : SubModule)
    (c : Leaf) : LeafOut :=
  if !(leafIsLinear c || leafIsConv2d c) then .ignore
  else
    let nm := loraNameOf pfx m c
    match cfg.modules_dim with
    | some dm => classifyLeafMapped cfg is_flux dm c nm
    | none => classifyLeafTraining cfg is_flux c nm

/-- The inner `for child_name, child_module` loop (lines 513-564). -/
def processChildren (cfg : NetworkCfg) (is_flux : Bool) (pfx : String) (m : SubModule) :
    List Leaf → Option (List Lora × List String)
  | [] => some ([], [])
  | c :: rest =>
    match classifyLeaf cfg is_flux pfx m c, processChildren cfg is_flux pfx m rest with
    | .err, _ => none
    | _, none => none
    | .made l, some p => some (l :: p.1, p.2)
    | .skipRec nm, some p => some (p.1, nm :: p.2)
    | .skipSilent, some p => some p
    | .ignore, some p => some p

/-- The outer `for name, module in root_module.named_modules()` loop
(lines 511-565). -/
def createModulesGo (cfg : NetworkCfg) (is_flux : Bool) (pfx : String)
    (target_replace : List String) : List SubModule → Option (List Lora × List String)
  | [] => some ([], [])
  | m :: rest =>
    match (if m.className ∈ target_replace then processChildren cfg is_flux pfx m m.children
        else some ([], [])),
      createModulesGo cfg is_flux pfx target_replace rest with
    | none, _ => none
    | _, none => none
    | some p, some q => some (p.1 ++ q.1, p.2 ++ q.2)

/-- `create_modules` (lines 500-565). -/
def create_modules (cfg : NetworkCfg) (is_flux : Bool) (text_encoder_idx : Option ℕ)
    (root : List SubModule) (target_replace : List String) :
    Option (List Lora × List String) :=
  createModulesGo cfg is_flux (pfxOf is_flux text_encoder_idx) target_replace root

/-- The backbone adapter discovery of `LoRANetwork.__init__` (lines 584-592)
for a given `train_blocks` setting. -/
def unet_loras (cfg : NetworkCfg) (tb : TrainBlocks) (flux_model : List SubModule) :
    Option (List Lora × List String) :=
  create_modules { cfg with train_blocks := tb } true none flux_model (targetReplaceModules tb)

/-- Specification-side: the adapters one child contributes. -/
def leafLoras (cfg : NetworkCfg) (is_flux : Bool) (pfx : String) (m : SubModule)
    (c : Leaf) : List Lora :=
  match classifyLeaf cfg is_flux pfx m c with
  | .made l => [l]
  | _ => []

/-- Specification-side: the recorded skips one child contributes. -/
def leafSkips (cfg : NetworkCfg) (is_flux : Bool) (pfx : String) (m : SubModule)
    (c : Leaf) : List String :=
  match classifyLeaf cfg is_flux pfx m c with
  | .skipRec nm => [nm]
  | _ => []

/-- Specification-side: the adapters one sub-module contributes. -/
def moduleLoras (cfg : NetworkCfg) (is_flux : Bool) (pfx : String)
    (target_replace : List String) (m : SubModule) : List Lora :=
  if m.className ∈ target_replace then m.children.flatMap (leafLoras cfg is_flux pfx m) else []

/-- Specification-side: the recorded skips one sub-module contributes. -/
def moduleSkips (cfg : NetworkCfg) (is_flux : Bool) (pfx : String)
    (target_replace : List String) (m : SubModule) : List String :=
  if m.className ∈ target_replace then m.children.flatMap (leafSkips cfg is_flux pfx m) else []

/-- Every eligible (`Linear`/`Conv2d` inside a targeted block) leaf's adapter
name, whether created or skipped — the domain over which the source's
duplicate-name assertion (lines 604-607) guarantees uniqueness. -/
def candidateNames (pfx : String) (target_replace : List String)
    (model : List SubModule) : List String :=
  model.flatMap (fun m =>
    if m.className ∈ target_replace then
      m.children.flatMap (fun c =>
        if leafIsLinear c || leafIsConv2d c then [loraNameOf pfx m c] else [])
    else [])

lemma processChildren_eq (cfg : NetworkCfg) (is_flux : Bool) (pfx : String) (m : SubModule) :
    ∀ leaves : List Leaf,
      (∀ c ∈ leaves, classifyLeaf cfg is_flux pfx m c ≠ .err) →
      processChildren cfg is_flux pfx m leaves
        = some (leaves.flatMap (leafLoras cfg is_flux pfx m),
            leaves.flatMap (leafSkips cfg is_flux pfx m)) := by
  intro leaves
  induction leaves with
  | nil => intro _; rfl
  | cons c rest ih =>
    intro h
    have hc : classifyLeaf cfg is_flux pfx m c ≠ .err := h c (List.mem_cons_self _ _)
    have hrest := ih (fun x hx => h x (List.mem_cons_of_mem _ hx))
    show (match classifyLeaf cfg is_flux pfx m c, processChildren cfg is_flux pfx m rest with
      | .err, _ => none
      | _, none => none
      | .made l, some p => some (l :: p.1, p.2)
      | .skipRec nm, some p => some (p.1, nm :: p.2)
      | .skipSilent, some p => some p
      | .ignore, some p => some p) = _
    rw [hrest]
    cases hcl : classifyLeaf cfg is_flux pfx m c with
    | made l => simp [List.flatMap_cons, leafLoras, leafSkips, hcl]
    | skipRec nm => simp [List.flatMap_cons, leafLoras, leafSkips, hcl]
    | skipSilent => simp [List.flatMap_cons, leafLoras, leafSkips, hcl]
    | ignore => simp [List.flatMap_cons, leafLoras, leafSkips, hcl]
    | err => exact absurd hcl hc

lemma createModulesGo_eq (cfg : NetworkCfg) (is_flux : Bool) (pfx : String)
    (target_replace : List String) :
    ∀ model : List SubModule,
      (∀ m ∈ model, m.className ∈ target_replace →
        ∀ c ∈ m.children, classifyLeaf cfg is_flux pfx m c ≠ .err) →
      createModulesGo cfg is_flux pfx target_replace model
        = some (model.flatMap (moduleLoras cfg is_flux pfx target_replace),
            model.flatMap (moduleSkips cfg is_flux pfx target_replace)) := by
  intro model
  induction model with
  | nil => intro _; rfl
  | cons m rest ih =>
    intro h
    have hrest := ih (fun x hx => h x (List.mem_cons_of_mem _ hx))
    show (match (if m.className ∈ target_replace then
          processChildren cfg is_flux pfx m m.children else some ([], [])),
        createModulesGo cfg is_flux pfx target_replace rest with
      | none, _ => none
      | _, none => none
      | some p, some q => some (p.1 ++ q.1, p.2 ++ q.2)) = _
    rw [hrest]
    by_cases hm : m.className ∈ target_replace
    · rw [if_pos hm, processChildren_eq cfg is_flux pfx m m.children
        (h m (List.mem_cons_self _ _) hm)]
      simp [List.flatMap_cons, moduleLoras, moduleSkips, hm]
    · rw [if_neg hm]
      simp [List.flatMap_cons, moduleLoras, moduleSkips, hm]

lemma classifyLeaf_train_blocks (cfg : NetworkCfg) (tb : TrainBlocks) (f : Bool)
    (pfx : String) (m : SubModule) (c : Leaf) :
    classifyLeaf { cfg with train_blocks := tb } f pfx m c = classifyLeaf cfg f pfx m c := by
  cases cfg
  rfl

lemma moduleLoras_train_blocks (cfg : NetworkCfg) (tb : TrainBlocks) (f : Bool)
    (pfx : String) (tr : List String) (m : SubModule) :
    moduleLoras { cfg with train_blocks := tb } f pfx tr m = moduleLoras cfg f pfx tr m := by
  cases cfg
  rfl

lemma moduleSkips_train_blocks (cfg : NetworkCfg) (tb : TrainBlocks) (f : Bool)
    (pfx : String) (tr : List String) (m : SubModule) :
    moduleSkips { cfg with train_blocks := tb } f pfx tr m = moduleSkips cfg f pfx tr m := by
  cases cfg
  rfl

lemma skipOutcome_ne_err (cfg : NetworkCfg) (c : Leaf) (nm : String) :
    skipOutcome cfg c nm ≠ .err := by
  unfold skipOutcome
  by_cases hb : (leafIsLinear c || leafIsConv2d1x1 c || cfg.conv_lora_dim.isSome) = true
  · rw [if_pos hb]
    exact fun h => LeafOut.noConfusion h
  · rw [if_neg hb]
    exact fun h => LeafOut.noConfusion h

lemma classifyLeafTraining_ne_err (cfg : NetworkCfg) (f : Bool) (c : Leaf) (nm : String) :
    classifyLeafTraining cfg f c nm ≠ .err := by
  unfold classifyLeafTraining
  by_cases hb : (leafIsLinear c || leafIsConv2d1x1 c) = true
  · rw [if_pos hb]
    show (if cfg.lora_dim = 0 then skipOutcome cfg c nm
      else LeafOut.made ⟨nm, cfg.lora_dim, some cfg.alpha, computeSplitDims cfg f nm⟩) ≠ .err
    by_cases hd : cfg.lora_dim = 0
    · rw [if_pos hd]
      exact skipOutcome_ne_err cfg c nm
    · rw [if_neg hd]
      exact fun h => LeafOut.noConfusion h
  · rw [if_neg hb]
    cases hcv : cfg.conv_lora_dim with
    | none => exact skipOutcome_ne_err cfg c nm
    | some cd =>
      show (if cd = 0 then skipOutcome cfg c nm
        else LeafOut.made ⟨nm, cd, cfg.conv_alpha, computeSplitDims cfg f nm⟩) ≠ .err
      by_cases hd : cd = 0
      · rw [if_pos hd]
        exact skipOutcome_ne_err cfg c nm
      · rw [if_neg hd]
        exact fun h => LeafOut.noConfusion h

lemma classifyLeaf_ne_err_training (cfg : NetworkCfg) (f : Bool) (pfx : String)
    (m : SubModule) (c : Leaf) (hmode : cfg.modules_dim = none) :
    classifyLeaf cfg f pfx m c ≠ .err := by
  unfold classifyLeaf
  rw [hmode]
  by_cases hb : (!(leafIsLinear c || leafIsConv2d c)) = true
  · rw [if_pos hb]
    exact fun h => LeafOut.noConfusion h
  · rw [if_neg hb]
    exact classifyLeafTraining_ne_err cfg f c (loraNameOf pfx m c)

lemma classifyLeaf_training_linear (cfg : NetworkCfg) (f : Bool) (pfx : String)
    (m : SubModule) (c : Leaf) (hmode : cfg.modules_dim = none) (hdim : cfg.lora_dim ≠ 0)
    (hc : c.className = "Linear") :
    classifyLeaf cfg f pfx m c
      = .made ⟨loraNameOf pfx m c, cfg.lora_dim, some cfg.alpha,
          computeSplitDims cfg f (loraNameOf pfx m c)⟩ := by
  have hlin : leafIsLinear c = true := by
    simp [leafIsLinear, hc]
  unfold classifyLeaf
  rw [hmode]
  simp only [hlin, Bool.true_or, Bool.not_true, Bool.false_eq_true, if_false]
  unfold classifyLeafTraining
  simp only [hlin, Bool.true_or, if_true]
  show (if cfg.lora_dim = 0 then skipOutcome cfg c (loraNameOf pfx m c) else _) = _
  rw [if_neg hdim]

lemma moduleLoras_all_split (cfg : NetworkCfg) (f : Bool) (pfx : String) (m : SubModule) :
    moduleLoras cfg f pfx (targetReplaceModules .all) m
      = moduleLoras cfg f pfx (targetReplaceModules .double) m
        ++ moduleLoras cfg f pfx (targetReplaceModules .single) m := by
  unfold moduleLoras targetReplaceModules
  by_cases hd : m.className = "DoubleStreamBlock"
  · simp [hd]
  · by_cases hs : m.className = "SingleStreamBlock"
    · simp [hd, hs]
    · simp [hd, hs]

lemma count_names_all_split (cfg : NetworkCfg) (x : String) :
    ∀ model : List SubModule,
      List.count x ((model.flatMap
          (moduleLoras cfg true LORA_PREFIX_FLUX (targetReplaceModules .all))).map Lora.lora_name)
        = List.count x ((model.flatMap
            (moduleLoras cfg true LORA_PREFIX_FLUX (targetReplaceModules .double))).map Lora.lora_name)
          + List.count x ((model.flatMap
            (moduleLoras cfg true LORA_PREFIX_FLUX (targetReplaceModules .single))).map Lora.lora_name) := by
  intro model
  induction model with
  | nil => rfl
  | cons m rest ih =>
    simp only [List.flatMap_cons, List.map_append, List.count_append]
    rw [moduleLoras_all_split cfg true LORA_PREFIX_FLUX m, List.map_append, List.count_append]
    omega

/-- C7: for a base model containing both block families (with at least one
linear layer inside a single-stream block) and a training configuration
(positive default rank, no weight map), the backbone adapter sets discovered
with `train_blocks="single"` and `train_blocks="double"` are a non-empty set
and a disjoint set whose union is the `train_blocks="all"` set.  The
distinct-name hypothesis is the source's own duplicate-name assertion
(lines 604-607). -/
theorem c7_train_blocks_partition (cfg : NetworkCfg) (model : List SubModule)
    (hmode : cfg.modules_dim = none)
    (hdim : cfg.lora_dim ≠ 0)
    (hsingle : ∃ m ∈ model, m.className = "SingleStreamBlock"
      ∧ ∃ c ∈ m.children, c.className = "Linear")
    (hnodup : ((model.flatMap
        (moduleLoras cfg true LORA_PREFIX_FLUX (targetReplaceModules .all))).map
          Lora.lora_name).Nodup) :
    ∃ lsA lsS lsD skA skS skD,
      unet_loras cfg TrainBlocks.all model = some (lsA, skA) ∧
      unet_loras cfg TrainBlocks.single model = some (lsS, skS) ∧
      unet_loras cfg TrainBlocks.double model = some (lsD, skD) ∧
      lsS ≠ [] ∧
      (lsS.map Lora.lora_name).toFinset ∩ (lsD.map Lora.lora_name).toFinset = ∅ ∧
      (lsS.map Lora.lora_name).toFinset ∪ (lsD.map Lora.lora_name).toFinset
        = (lsA.map Lora.lora_name).toFinset := by
  have hrun : ∀ tb : TrainBlocks,
      unet_loras cfg tb model
        = some (model.flatMap (moduleLoras cfg true LORA_PREFIX_FLUX (targetReplaceModules tb)),
            model.flatMap (moduleSkips cfg true LORA_PREFIX_FLUX (targetReplaceModules tb))) := by
    intro tb
    have hmode' : ({ cfg with train_blocks := tb } : NetworkCfg).modules_dim = none := hmode
    have h := createModulesGo_eq { cfg with train_blocks := tb } true
      (pfxOf true none) (targetReplaceModules tb) model
      (fun m _ _ c _ => classifyLeaf_ne_err_training _ true _ m c hmode')
    simp only [moduleLoras_train_blocks, moduleSkips_train_blocks] at h
    exact h
  refine ⟨_, _, _, _, _, _, hrun .all, hrun .single, hrun .double, ?_, ?_, ?_⟩
  · -- the single-stream set is non-empty
    obtain ⟨m, hm, hclass, c, hc, hlin⟩ := hsingle
    have hmade := classifyLeaf_training_linear cfg true LORA_PREFIX_FLUX m c hmode hdim hlin
    have hmem : (⟨loraNameOf LORA_PREFIX_FLUX m c, cfg.lora_dim, some cfg.alpha,
        computeSplitDims cfg true (loraNameOf LORA_PREFIX_FLUX m c)⟩ : Lora)
        ∈ model.flatMap (moduleLoras cfg true LORA_PREFIX_FLUX
            (targetReplaceModules TrainBlocks.single)) := by
      refine List.mem_flatMap.mpr ⟨m, hm, ?_⟩
      unfold moduleLoras
      rw [if_pos (by simp [targetReplaceModules, hclass])]
      refine List.mem_flatMap.mpr ⟨c, hc, ?_⟩
      simp [leafLoras, hmade]
    exact List.ne_nil_of_mem hmem
  · -- single and double are disjoint, by the duplicate-name assertion
    refine Finset.eq_empty_iff_forall_not_mem.mpr ?_
    intro x hx
    obtain ⟨hxS, hxD⟩ := Finset.mem_inter.mp hx
    have h1 : 0 < List.count x ((model.flatMap
        (moduleLoras cfg true LORA_PREFIX_FLUX (targetReplaceModules .single))).map
          Lora.lora_name) :=
      List.count_pos_iff.mpr (List.mem_toFinset.mp hxS)
    have h2 : 0 < List.count x ((model.flatMap
        (moduleLoras cfg true LORA_PREFIX_FLUX (targetReplaceModules .double))).map
          Lora.lora_name) :=
      List.count_pos_iff.mpr (List.mem_toFinset.mp hxD)
    have hle := List.nodup_iff_count_le_one.mp hnodup x
    have hsplit := count_names_all_split cfg x model
    omega
  · -- single and double together are exactly the "all" discovery
    refine Finset.ext ?_
    intro x
    have hsplit := count_names_all_split cfg x model
    simp only [Finset.mem_union, List.mem_toFinset]
    constructor
    · intro hx
      have : 0 < List.count x ((model.flatMap
          (moduleLoras cfg true LORA_PREFIX_FLUX (targetReplaceModules .all))).map
            Lora.lora_name) := by
        rcases hx with hx | hx
        · have := List.count_pos_iff.mpr hx
          omega
        · have := List.count_pos_iff.mpr hx
          omega
      exact List.count_pos_iff.mp this
    · intro hx
      have hall := List.count_pos_iff.mpr hx
      have : 0 < List.count x ((model.flatMap
            (moduleLoras cfg true LORA_PREFIX_FLUX (targetReplaceModules .single))).map
              Lora.lora_name)
          ∨ 0 < List.count x ((model.flatMap
            (moduleLoras cfg true LORA_PREFIX_FLUX (targetReplaceModules .double))).map
              Lora.lora_name) := by
        omega
      rcases this with h | h
      · exact Or.inl (List.count_pos_iff.mp h)
      · exact Or.inr (List.count_pos_iff.mp h)

/-- Training configuration used by the C7 witness. -/
def cfg7 : NetworkCfg :=
  { lora_dim := 4, alpha := 1, conv_lora_dim := none, conv_alpha := none,
    modules_dim := none, modules_alpha := [], split_qkv := false,
    train_blocks := TrainBlocks.all }

/-- Two-block base model used by the C7 witness: one double-stream and one
single-stream block, each with a linear layer. -/
def model7 : List SubModule :=
  [⟨"double_blocks.0", "DoubleStreamBlock", [⟨"img_attn.qkv", "Linear", false⟩]⟩,
   ⟨"single_blocks.0", "SingleStreamBlock", [⟨"linear2", "Linear", false⟩]⟩]

/-- Witness for C7 on the two-block model. -/
theorem c7_train_blocks_partition_witness :
    cfg7.modules_dim = none ∧
    cfg7.lora_dim ≠ 0 ∧
    (∃ m ∈ model7, m.className = "SingleStreamBlock"
      ∧ ∃ c ∈ m.children, c.className = "Linear") ∧
    ((model7.flatMap
        (moduleLoras cfg7 true LORA_PREFIX_FLUX (targetReplaceModules .all))).map
          Lora.lora_name).Nodup ∧
    (∃ lsA lsS lsD skA skS skD,
      unet_loras cfg7 TrainBlocks.all model7 = some (lsA, skA) ∧
      unet_loras cfg7 TrainBlocks.single model7 = some (lsS, skS) ∧
      unet_loras cfg7 TrainBlocks.double model7 = some (lsD, skD) ∧
      lsS ≠ [] ∧
      (lsS.map Lora.lora_name).toFinset ∩ (lsD.map Lora.lora_name).toFinset = ∅ ∧
      (lsS.map Lora.lora_name).toFinset ∪ (lsD.map Lora.lora_name).toFinset
        = (lsA.map Lora.lora_name).toFinset) :=
  ⟨rfl, by decide, by decide, by decide,
    c7_train_blocks_partition cfg7 model7 rfl (by decide) (by decide) (by decide)⟩

lemma skipOutcome_of_linear (cfg : NetworkCfg) (c : Leaf) (nm : String)
    (hlin : leafIsLinear c = true) : skipOutcome cfg c nm = .skipRec nm := by
  unfold skipOutcome
  rw [if_pos (by simp [hlin])]

lemma classifyLeafMapped_ne_err (cfg : NetworkCfg) (f : Bool) (dm : List (String × ℕ))
    (c : Leaf) (nm : String)
    (hcov : ∀ d, dm.lookup nm = some d → ∃ a, cfg.modules_alpha.lookup nm = some a) :
    classifyLeafMapped cfg f dm c nm ≠ .err := by
  unfold classifyLeafMapped
  cases hdm : dm.lookup nm with
  | none => exact skipOutcome_ne_err cfg c nm
  | some d =>
    obtain ⟨a, ha⟩ := hcov d hdm
    rw [ha]
    show (if d = 0 then skipOutcome cfg c nm
      else LeafOut.made ⟨nm, d, some a, computeSplitDims cfg f nm⟩) ≠ .err
    by_cases hd : d = 0
    · rw [if_pos hd]
      exact skipOutcome_ne_err cfg c nm
    · rw [if_neg hd]
      exact fun h => LeafOut.noConfusion h

lemma classifyLeaf_ne_err_mapped (cfg : NetworkCfg) (f : Bool) (pfx : String)
    (m : SubModule) (c : Leaf) (dm : List (String × ℕ)) (hmode : cfg.modules_dim = some dm)
    (hcov : ∀ nm d, dm.lookup nm = some d → ∃ a, cfg.modules_alpha.lookup nm = some a) :
    classifyLeaf cfg f pfx m c ≠ .err := by
  unfold classifyLeaf
  rw [hmode]
  by_cases hb : (!(leafIsLinear c || leafIsConv2d c)) = true
  · rw [if_pos hb]
    exact fun h => LeafOut.noConfusion h
  · rw [if_neg hb]
    exact classifyLeafMapped_ne_err cfg f dm c (loraNameOf pfx m c)
      (hcov (loraNameOf pfx m c))

lemma classifyLeaf_mapped_skip_absent (cfg : NetworkCfg) (f : Bool) (pfx : String)
    (m : SubModule) (c : Leaf) (dm : List (String × ℕ)) (hmode : cfg.modules_dim = some dm)
    (hlin : c.className = "Linear")
    (habs : dm.lookup (loraNameOf pfx m c) = none) :
    classifyLeaf cfg f pfx m c = .skipRec (loraNameOf pfx m c) := by
  have hl : leafIsLinear c = true := by simp [leafIsLinear, hlin]
  unfold classifyLeaf
  rw [hmode]
  rw [if_neg (by simp [hl])]
  show classifyLeafMapped cfg f dm c (loraNameOf pfx m c) = _
  unfold classifyLeafMapped
  rw [habs]
  exact skipOutcome_of_linear cfg c _ hl

lemma classifyLeaf_mapped_skip_zero (cfg : NetworkCfg) (f : Bool) (pfx : String)
    (m : SubModule) (c : Leaf) (dm : List (String × ℕ)) (a : ℚ)
    (hmode : cfg.modules_dim = some dm) (hlin : c.className = "Linear")
    (hz : dm.lookup (loraNameOf pfx m c) = some 0)
    (ha : cfg.modules_alpha.lookup (loraNameOf pfx m c) = some a) :
    classifyLeaf cfg f pfx m c = .skipRec (loraNameOf pfx m c) := by
  have hl : leafIsLinear c = true := by simp [leafIsLinear, hlin]
  unfold classifyLeaf
  rw [hmode]
  rw [if_neg (by simp [hl])]
  show classifyLeafMapped cfg f dm c (loraNameOf pfx m c) = _
  unfold classifyLeafMapped
  rw [hz]
  show (match cfg.modules_alpha.lookup (loraNameOf pfx m c) with
    | none => LeafOut.err
    | some a => if (0 : ℕ) = 0 then skipOutcome cfg c (loraNameOf pfx m c)
        else LeafOut.made ⟨loraNameOf pfx m c, 0, some a,
          computeSplitDims cfg f (loraNameOf pfx m c)⟩) = _
  rw [ha]
  show (if (0 : ℕ) = 0 then skipOutcome cfg c (loraNameOf pfx m c)
    else LeafOut.made ⟨loraNameOf pfx m c, 0, some a,
      computeSplitDims cfg f (loraNameOf pfx m c)⟩) = _
  rw [if_pos rfl]
  exact skipOutcome_of_linear cfg c _ hl

lemma classifyLeaf_mapped_made (cfg : NetworkCfg) (f : Bool) (pfx : String)
    (m : SubModule) (c : Leaf) (dm : List (String × ℕ)) (d : ℕ) (a : ℚ)
    (hmode : cfg.modules_dim = some dm) (hlin : c.className = "Linear")
    (hd : dm.lookup (loraNameOf pfx m c) = some d) (hd0 : d ≠ 0)
    (ha : cfg.modules_alpha.lookup (loraNameOf pfx m c) = some a) :
    classifyLeaf cfg f pfx m c
      = .made ⟨loraNameOf pfx m c, d, some a,
          computeSplitDims cfg f (loraNameOf pfx m c)⟩ := by
  have hl : leafIsLinear c = true := by simp [leafIsLinear, hlin]
  unfold classifyLeaf
  rw [hmode]
  rw [if_neg (by simp [hl])]
  show classifyLeafMapped cfg f dm c (loraNameOf pfx m c) = _
  unfold classifyLeafMapped
  rw [hd]
  show (match cfg.modules_alpha.lookup (loraNameOf pfx m c) with
    | none => LeafOut.err
    | some a => if d = 0 then skipOutcome cfg c (loraNameOf pfx m c)
        else LeafOut.made ⟨loraNameOf pfx m c, d, some a,
          computeSplitDims cfg f (loraNameOf pfx m c)⟩) = _
  rw [ha]
  show (if d = 0 then skipOutcome cfg c (loraNameOf pfx m c)
    else LeafOut.made ⟨loraNameOf pfx m c, d, some a,
      computeSplitDims cfg f (loraNameOf pfx m c)⟩) = _
  rw [if_neg hd0]

lemma classifyLeaf_made_facts (cfg : NetworkCfg) (f : Bool) (pfx : String)
    (m : SubModule) (c : Leaf) (l : Lora) (h : classifyLeaf cfg f pfx m c = .made l) :
    l.lora_name = loraNameOf pfx m c ∧ (leafIsLinear c || leafIsConv2d c) = true := by
  unfold classifyLeaf at h
  by_cases hb : (!(leafIsLinear c || leafIsConv2d c)) = true
  · rw [if_pos hb] at h
    exact absurd h (fun hh => LeafOut.noConfusion hh)
  · have helig : (leafIsLinear c || leafIsConv2d c) = true := by
      revert hb
      cases leafIsLinear c || leafIsConv2d c <;> simp
    refine ⟨?_, helig⟩
    rw [if_neg hb] at h
    cases hmode : cfg.modules_dim with
    | some dm =>
      rw [hmode] at h
      have h' : classifyLeafMapped cfg f dm c (loraNameOf pfx m c) = .made l := h
      unfold classifyLeafMapped at h'
      cases hdm : dm.lookup (loraNameOf pfx m c) with
      | none =>
        rw [hdm] at h'
        unfold skipOutcome at h'
        by_cases hs : (leafIsLinear c || leafIsConv2d1x1 c || cfg.conv_lora_dim.isSome) = true
        · rw [if_pos hs] at h'
          exact absurd h' (fun hh => LeafOut.noConfusion hh)
        · rw [if_neg hs] at h'
          exact absurd h' (fun hh => LeafOut.noConfusion hh)
      | some d =>
        rw [hdm] at h'
        cases ha : cfg.modules_alpha.lookup (loraNameOf pfx m c) with
        | none =>
          rw [ha] at h'
          exact absurd h' (fun hh => LeafOut.noConfusion hh)
        | some a =>
          rw [ha] at h'
          have h'' : (if d = 0 then skipOutcome cfg c (loraNameOf pfx m c)
              else LeafOut.made ⟨loraNameOf pfx m c, d, some a,
                computeSplitDims cfg f (loraNameOf pfx m c)⟩) = .made l := h'
          by_cases hd : d = 0
          · rw [if_pos hd] at h''
            unfold skipOutcome at h''
            by_cases hs : (leafIsLinear c || leafIsConv2d1x1 c || cfg.conv_lora_dim.isSome) = true
            · rw [if_pos hs] at h''
              exact absurd h'' (fun hh => LeafOut.noConfusion hh)
            · rw [if_neg hs] at h''
              exact absurd h'' (fun hh => LeafOut.noConfusion hh)
          · rw [if_neg hd] at h''
            cases h''
            rfl
    | none =>
      rw [hmode] at h
      have h' : classifyLeafTraining cfg f c (loraNameOf pfx m c) = .made l := h
      unfold classifyLeafTraining at h'
      by_cases hba : (leafIsLinear c || leafIsConv2d1x1 c) = true
      · rw [if_pos hba] at h'
        have h'' : (if cfg.lora_dim = 0 then skipOutcome cfg c (loraNameOf pfx m c)
            else LeafOut.made ⟨loraNameOf pfx m c, cfg.lora_dim, some cfg.alpha,
              computeSplitDims cfg f (loraNameOf pfx m c)⟩) = .made l := h'
        by_cases hd : cfg.lora_dim = 0
        · rw [if_pos hd] at h''
          unfold skipOutcome at h''
          by_cases hs : (leafIsLinear c || leafIsConv2d1x1 c || cfg.conv_lora_dim.isSome) = true
          · rw [if_pos hs] at h''
            exact absurd h'' (fun hh => LeafOut.noConfusion hh)
          · rw [if_neg hs] at h''
            exact absurd h'' (fun hh => LeafOut.noConfusion hh)
        · rw [if_neg hd] at h''
          cases h''
          rfl
      · rw [if_neg hba] at h'
        cases hcv : cfg.conv_lora_dim with
        | none =>
          rw [hcv] at h'
          have h'' : skipOutcome cfg c (loraNameOf pfx m c) = .made l := h'
          unfold skipOutcome at h''
          by_cases hs : (leafIsLinear c || leafIsConv2d1x1 c || cfg.conv_lora_dim.isSome) = true
          · rw [if_pos hs] at h''
            exact absurd h'' (fun hh => LeafOut.noConfusion hh)
          · rw [if_neg hs] at h''
            exact absurd h'' (fun hh => LeafOut.noConfusion hh)
        | some cd =>
          rw [hcv] at h'
          have h'' : (if cd = 0 then skipOutcome cfg c (loraNameOf pfx m c)
              else LeafOut.made ⟨loraNameOf pfx m c, cd, cfg.conv_alpha,
                computeSplitDims cfg f (loraNameOf pfx m c)⟩) = .made l := h'
          by_cases hd : cd = 0
          · rw [if_pos hd] at h''
            unfold skipOutcome at h''
            by_cases hs : (leafIsLinear c || leafIsConv2d1x1 c || cfg.conv_lora_dim.isSome) = true
            · rw [if_pos hs] at h''
              exact absurd h'' (fun hh => LeafOut.noConfusion hh)
            · rw [if_neg hs] at h''
              exact absurd h'' (fun hh => LeafOut.noConfusion hh)
          · rw [if_neg hd] at h''
            cases h''
            rfl

lemma skipOutcome_skipRec_name (cfg : NetworkCfg) (c : Leaf) (nm nm' : String)
    (h : skipOutcome cfg c nm = .skipRec nm') : nm' = nm := by
  unfold skipOutcome at h
  by_cases hs : (leafIsLinear c || leafIsConv2d1x1 c || cfg.conv_lora_dim.isSome) = true
  · rw [if_pos hs] at h
    cases h
    rfl
  · rw [if_neg hs] at h
    exact absurd h (fun hh => LeafOut.noConfusion hh)

lemma classifyLeaf_skipRec_facts (cfg : NetworkCfg) (f : Bool) (pfx : String)
    (m : SubModule) (c : Leaf) (nm' : String)
    (h : classifyLeaf cfg f pfx m c = .skipRec nm') :
    nm' = loraNameOf pfx m c ∧ (leafIsLinear c || leafIsConv2d c) = true := by
  unfold classifyLeaf at h
  by_cases hb : (!(leafIsLinear c || leafIsConv2d c)) = true
  · rw [if_pos hb] at h
    exact absurd h (fun hh => LeafOut.noConfusion hh)
  · have helig : (leafIsLinear c || leafIsConv2d c) = true := by
      revert hb
      cases leafIsLinear c || leafIsConv2d c <;> simp
    refine ⟨?_, helig⟩
    rw [if_neg hb] at h
    cases hmode : cfg.modules_dim with
    | some dm =>
      rw [hmode] at h
      have h' : classifyLeafMapped cfg f dm c (loraNameOf pfx m c) = .skipRec nm' := h
      unfold classifyLeafMapped at h'
      cases hdm : dm.lookup (loraNameOf pfx m c) with
      | none =>
        rw [hdm] at h'
        exact skipOutcome_skipRec_name cfg c _ _ h'
      | some d =>
        rw [hdm] at h'
        cases ha : cfg.modules_alpha.lookup (loraNameOf pfx m c) with
        | none =>
          rw [ha] at h'
          exact absurd h' (fun hh => LeafOut.noConfusion hh)
        | some a =>
          rw [ha] at h'
          have h'' : (if d = 0 then skipOutcome cfg c (loraNameOf pfx m c)
              else LeafOut.made ⟨loraNameOf pfx m c, d, some a,
                computeSplitDims cfg f (loraNameOf pfx m c)⟩) = .skipRec nm' := h'
          by_cases hd : d = 0
          · rw [if_pos hd] at h''
            exact skipOutcome_skipRec_name cfg c _ _ h''
          · rw [if_neg hd] at h''
            exact absurd h'' (fun hh => LeafOut.noConfusion hh)
    | none =>
      rw [hmode] at h
      have h' : classifyLeafTraining cfg f c (loraNameOf pfx m c) = .skipRec nm' := h
      unfold classifyLeafTraining at h'
      by_cases hba : (leafIsLinear c || leafIsConv2d1x1 c) = true
      · rw [if_pos hba] at h'
        have h'' : (if cfg.lora_dim = 0 then skipOutcome cfg c (loraNameOf pfx m c)
            else LeafOut.made ⟨loraNameOf pfx m c, cfg.lora_dim, some cfg.alpha,
              computeSplitDims cfg f (loraNameOf pfx m c)⟩) = .skipRec nm' := h'
        by_cases hd : cfg.lora_dim = 0
        · rw [if_pos hd] at h''
          exact skipOutcome_skipRec_name cfg c _ _ h''
        · rw [if_neg hd] at h''
          exact absurd h'' (fun hh => LeafOut.noConfusion hh)
      · rw [if_neg hba] at h'
        cases hcv : cfg.conv_lora_dim with
        | none =>
          rw [hcv] at h'
          exact skipOutcome_skipRec_name cfg c _ _ h'
        | some cd =>
          rw [hcv] at h'
          have h'' : (if cd = 0 then skipOutcome cfg c (loraNameOf pfx m c)
              else LeafOut.made ⟨loraNameOf pfx m c, cd, cfg.conv_alpha,
                computeSplitDims cfg f (loraNameOf pfx m c)⟩) = .skipRec nm' := h'
          by_cases hd : cd = 0
          · rw [if_pos hd] at h''
            exact skipOutcome_skipRec_name cfg c _ _ h''
          · rw [if_neg hd] at h''
            exact absurd h'' (fun hh => LeafOut.noConfusion hh)

lemma leaf_count_le (cfg : NetworkCfg) (f : Bool) (pfx : String) (m : SubModule)
    (c : Leaf) (x : String) :
    List.count x ((leafLoras cfg f pfx m c).map Lora.lora_name)
      + List.count x (leafSkips cfg f pfx m c)
    ≤ List.count x
        (if leafIsLinear c || leafIsConv2d c then [loraNameOf pfx m c] else []) := by
  cases hcl : classifyLeaf cfg f pfx m c with
  | made l =>
    obtain ⟨hname, helig⟩ := classifyLeaf_made_facts cfg f pfx m c l hcl
    simp [leafLoras, leafSkips, hcl, helig, hname]
  | skipRec nm =>
    obtain ⟨hname, helig⟩ := classifyLeaf_skipRec_facts cfg f pfx m c nm hcl
    simp [leafLoras, leafSkips, hcl, helig, hname]
  | skipSilent => simp [leafLoras, leafSkips, hcl]
  | ignore => simp [leafLoras, leafSkips, hcl]
  | err => simp [leafLoras, leafSkips, hcl]

lemma children_counts_le (cfg : NetworkCfg) (f : Bool) (pfx : String) (m : SubModule)
    (x : String) :
    ∀ leaves : List Leaf,
      List.count x ((leaves.flatMap (leafLoras cfg f pfx m)).map Lora.lora_name)
        + List.count x (leaves.flatMap (leafSkips cfg f pfx m))
      ≤ List.count x (leaves.flatMap (fun c =>
          if leafIsLinear c || leafIsConv2d c then [loraNameOf pfx m c] else [])) := by
  intro leaves
  induction leaves with
  | nil => simp
  | cons c rest ih =>
    simp only [List.flatMap_cons, List.map_append, List.count_append]
    have hc := leaf_count_le cfg f pfx m c x
    omega

lemma counts_le_candidates (cfg : NetworkCfg) (f : Bool) (pfx : String)
    (tr : List String) (x : String) :
    ∀ model : List SubModule,
      List.count x ((model.flatMap (moduleLoras cfg f pfx tr)).map Lora.lora_name)
        + List.count x (model.flatMap (moduleSkips cfg f pfx tr))
      ≤ List.count x (candidateNames pfx tr model) := by
  intro model
  induction model with
  | nil => simp [candidateNames]
  | cons m rest ih =>
    unfold candidateNames
    unfold candidateNames at ih
    simp only [List.flatMap_cons, List.map_append, List.count_append]
    have hm : List.count x ((moduleLoras cfg f pfx tr m).map Lora.lora_name)
        + List.count x (moduleSkips cfg f pfx tr m)
        ≤ List.count x (if m.className ∈ tr then
            m.children.flatMap (fun c =>
              if leafIsLinear c || leafIsConv2d c then [loraNameOf pfx m c] else [])
          else []) := by
      unfold moduleLoras moduleSkips
      by_cases hmem : m.className ∈ tr
      · rw [if_pos hmem, if_pos hmem, if_pos hmem]
        exact children_counts_le cfg f pfx m x m.children
      · rw [if_neg hmem, if_neg hmem, if_neg hmem]
        simp
    omega

/-- C8: building from a per-name rank/alpha map, every linear candidate layer
whose name is absent from the map or resolves to rank 0 is recorded as
skipped and yields no adapter — without raising an error — while every name
present with a positive rank yields an adapter with exactly that rank
(partial coverage is valid).  `hcov` says the weight map supplies an alpha for
every name it supplies a rank for (as serialized files do); the distinct-name
hypothesis is the source's own duplicate-name assertion (lines 604-607). -/
theorem c8_rank_map_partial_coverage (cfg : NetworkCfg) (dm : List (String × ℕ))
    (is_flux : Bool) (teIdx : Option ℕ) (model : List SubModule) (tr : List String)
    (hmode : cfg.modules_dim = some dm)
    (hcov : ∀ nm d, dm.lookup nm = some d → ∃ a, cfg.modules_alpha.lookup nm = some a)
    (hnodup : (candidateNames (pfxOf is_flux teIdx) tr model).Nodup) :
    ∃ ls sk, create_modules cfg is_flux teIdx model tr = some (ls, sk) ∧
      ∀ m ∈ model, m.className ∈ tr → ∀ c ∈ m.children, c.className = "Linear" →
        ((dm.lookup (loraNameOf (pfxOf is_flux teIdx) m c) = none ∨
            dm.lookup (loraNameOf (pfxOf is_flux teIdx) m c) = some 0) →
          loraNameOf (pfxOf is_flux teIdx) m c ∈ sk ∧
            loraNameOf (pfxOf is_flux teIdx) m c ∉ ls.map Lora.lora_name) ∧
        (∀ d, dm.lookup (loraNameOf (pfxOf is_flux teIdx) m c) = some d → d ≠ 0 →
          ∃ l ∈ ls, l.lora_name = loraNameOf (pfxOf is_flux teIdx) m c ∧ l.dim = d) := by
  have hrun := createModulesGo_eq cfg is_flux (pfxOf is_flux teIdx) tr model
    (fun m _ _ c _ =>
      classifyLeaf_ne_err_mapped cfg is_flux (pfxOf is_flux teIdx) m c dm hmode hcov)
  refine ⟨_, _, hrun, ?_⟩
  intro m hm hmem c hc hlin
  constructor
  · intro habs0
    have hskip : classifyLeaf cfg is_flux (pfxOf is_flux teIdx) m c
        = .skipRec (loraNameOf (pfxOf is_flux teIdx) m c) := by
      rcases habs0 with habs | h0
      · exact classifyLeaf_mapped_skip_absent cfg is_flux _ m c dm hmode hlin habs
      · obtain ⟨a, ha⟩ := hcov _ 0 h0
        exact classifyLeaf_mapped_skip_zero cfg is_flux _ m c dm a hmode hlin h0 ha
    have hsk_mem : loraNameOf (pfxOf is_flux teIdx) m c
        ∈ model.flatMap (moduleSkips cfg is_flux (pfxOf is_flux teIdx) tr) := by
      refine List.mem_flatMap.mpr ⟨m, hm, ?_⟩
      unfold moduleSkips
      rw [if_pos hmem]
      exact List.mem_flatMap.mpr ⟨c, hc, by simp [leafSkips, hskip]⟩
    refine ⟨hsk_mem, ?_⟩
    intro hmemls
    have h1 : 0 < List.count (loraNameOf (pfxOf is_flux teIdx) m c)
        ((model.flatMap (moduleLoras cfg is_flux (pfxOf is_flux teIdx) tr)).map
          Lora.lora_name) := List.count_pos_iff.mpr hmemls
    have h2 : 0 < List.count (loraNameOf (pfxOf is_flux teIdx) m c)
        (model.flatMap (moduleSkips cfg is_flux (pfxOf is_flux teIdx) tr)) :=
      List.count_pos_iff.mpr hsk_mem
    have hle := counts_le_candidates cfg is_flux (pfxOf is_flux teIdx) tr
      (loraNameOf (pfxOf is_flux teIdx) m c) model
    have hcand := List.nodup_iff_count_le_one.mp hnodup (loraNameOf (pfxOf is_flux teIdx) m c)
    omega
  · intro d hd hd0
    obtain ⟨a, ha⟩ := hcov _ d hd
    have hmade := classifyLeaf_mapped_made cfg is_flux _ m c dm d a hmode hlin hd hd0 ha
    refine ⟨⟨loraNameOf (pfxOf is_flux teIdx) m c, d, some a,
      computeSplitDims cfg is_flux (loraNameOf (pfxOf is_flux teIdx) m c)⟩, ?_, rfl, rfl⟩
    refine List.mem_flatMap.mpr ⟨m, hm, ?_⟩
    unfold moduleLoras
    rw [if_pos hmem]
    exact List.mem_flatMap.mpr ⟨c, hc, by simp [leafLoras, hmade]⟩

/-- Rank map of the C8 witness: one name resolved to rank 0, one to rank 8. -/
def dm8 : List (String × ℕ) := [("lora_unet_blk_lin1", 0), ("lora_unet_blk_lin2", 8)]

/-- Configuration of the C8 witness, loading from `dm8`. -/
def cfg8 : NetworkCfg :=
  { lora_dim := 0, alpha := 0, conv_lora_dim := none, conv_alpha := none,
    modules_dim := some dm8,
    modules_alpha := [("lora_unet_blk_lin1", 1), ("lora_unet_blk_lin2", 4)],
    split_qkv := false, train_blocks := TrainBlocks.all }

/-- One-block model of the C8 witness with two linear layers. -/
def model8 : List SubModule :=
  [⟨"blk", "DoubleStreamBlock", [⟨"lin1", "Linear", false⟩, ⟨"lin2", "Linear", false⟩]⟩]

/-- Witness for C8: rank-0 name skipped, rank-8 name created with rank 8. -/
theorem c8_rank_map_partial_coverage_witness :
    cfg8.modules_dim = some dm8 ∧
    (∀ nm d, dm8.lookup nm = some d → ∃ a, cfg8.modules_alpha.lookup nm = some a) ∧
    (candidateNames (pfxOf true none) ["DoubleStreamBlock"] model8).Nodup ∧
    (∃ ls sk, create_modules cfg8 true none model8 ["DoubleStreamBlock"] = some (ls, sk) ∧
      ∀ m ∈ model8, m.className ∈ ["DoubleStreamBlock"] →
        ∀ c ∈ m.children, c.className = "Linear" →
        ((dm8.lookup (loraNameOf (pfxOf true none) m c) = none ∨
            dm8.lookup (loraNameOf (pfxOf true none) m c) = some 0) →
          loraNameOf (pfxOf true none) m c ∈ sk ∧
            loraNameOf (pfxOf true none) m c ∉ ls.map Lora.lora_name) ∧
        (∀ d, dm8.lookup (loraNameOf (pfxOf true none) m c) = some d → d ≠ 0 →
          ∃ l ∈ ls, l.lora_name = loraNameOf (pfxOf true none) m c ∧ l.dim = d)) := by
  have hcov : ∀ nm d, dm8.lookup nm = some d →
      ∃ a, cfg8.modules_alpha.lookup nm = some a := by
    intro nm d h
    simp only [dm8, List.lookup] at h
    by_cases h1 : (nm == "lora_unet_blk_lin1") = true
    · exact ⟨1, by simp [cfg8, List.lookup, h1]⟩
    by_cases h2 : (nm == "lora_unet_blk_lin2") = true
    · exact ⟨4, by simp [cfg8, List.lookup, h1, h2]⟩
    simp [h1, h2] at h
  exact ⟨rfl, hcov, by decide,
    c8_rank_map_partial_coverage cfg8 dm8 true none model8 ["DoubleStreamBlock"]
      rfl hcov (by decide)⟩
